import Mathlib

/-!
Verification development for the TartanTrips match engine.

The definitions below are a shallow embedding of the repository's source:
  * `src/app/api/match-requests/route.js` — the match-protocol endpoint
    (request / withdraw / accept / deny / remove) acting on the six
    parallel `match_email_i` / `match_status_i` columns of each trip row;
  * `src/app/trips/page.tsx` — the candidate pipeline (`fetchMatchesForTrips`)
    and the new-match notification endpoint appended to that file;
  * `src/app/auth/callback/page.js` — the trip-status-sync endpoint appended
    to that file;
  * `src/unnamed/part_004` — `allowsSex`, `windowsOverlap` and
    `validateAndComputeWindow` on the dashboard page.

The record store (Supabase) is modelled as a list of trip rows; each
`update ... eq id` call becomes a pointwise map over that list.  Timestamps
(ISO strings in the source, compared with the native ordering) are modelled
as integers; `null` database values are modelled with `Option`.
-/

namespace TartanTrips

/-- JavaScript `Array.prototype.findIndex` over a slot list, specialised to
the comparison `trip[field] === email` used by `getSlotForEmail`.
Returns `none` for `-1`. -/
def findSlotIdx (email : String) : List (Option String) → Option Nat
  | [] => none
  | x :: xs =>
      if x = some email then some 0
      else (findSlotIdx email xs).map (· + 1)

/-- JavaScript `findIndex((field) => !trip[field])` used by `getEmptySlot`:
the first slot whose email cell is null.  Returns `none` for `-1`. -/
def findEmptyIdx : List (Option String) → Option Nat
  | [] => none
  | x :: xs =>
      if x = none then some 0
      else (findEmptyIdx xs).map (· + 1)

/-- Overwrite index `i` of a list, leaving the list unchanged when the index
is out of range (mirrors assignment to a fixed parallel-array column). -/
def setIdx : List α → Nat → α → List α
  | [], _, _ => []
  | _ :: xs, 0, b => b :: xs
  | x :: xs, n + 1, b => x :: setIdx xs n b

/-- One row of the `trips` table, restricted to the columns the match
engine reads.  `emails` and `statuses` are the six parallel
`match_email_i` / `match_status_i` columns. -/
structure Trip where
  id : String
  user_email : String
  sex : String
  direction : String
  flight_date : String
  flight_time : Option Int
  allowed_partner_sex : String
  trip_status : Option String
  window_start : Option Int
  window_end : Option Int
  created_at : Int
  baseline_match_check_at : Option Int
  emails : List (Option String)
  statuses : List (Option String)
  deriving DecidableEq, Repr

/-- `getSlotForEmail` from `src/app/api/match-requests/route.js`. -/
def getSlotForEmail (t : Trip) (email : String) : Option Nat :=
  findSlotIdx email t.emails

/-- `getEmptySlot` from `src/app/api/match-requests/route.js`. -/
def getEmptySlot (t : Trip) : Option Nat :=
  findEmptyIdx t.emails

/-- The status cell paired with the first slot holding `email`
(`trip[matchStatusFields[slot]]` after `getSlotForEmail`). -/
def statusToward (t : Trip) (email : String) : Option String :=
  match getSlotForEmail t email with
  | none => none
  | some i => (t.statuses.get? i).join

/-- Helper for `getMatchedPartners`: walks the two parallel columns and
keeps the emails whose paired status is `"matched"`. -/
def matchedPartnersAux : List (Option String) → List (Option String) → List String
  | e :: es, s :: ss =>
      let rest := matchedPartnersAux es ss
      match e, s with
      | some x, some st => if st = "matched" then x :: rest else rest
      | _, _ => rest
  | _, _ => []

/-- `getMatchedPartners` from the match-requests endpoint. -/
def getMatchedPartners (t : Trip) : List String :=
  matchedPartnersAux t.emails t.statuses

/-- `hasStatusWithEmail` from the match-requests endpoint. -/
def hasStatusWithEmail (t : Trip) (email status : String) : Bool :=
  match getSlotForEmail t email with
  | none => false
  | some i => (t.statuses.get? i).join = some status

/-- Number of occupied match slots (the `filledSlots` computation in
`handleConfirmMatch`, counting the non-null email cells). -/
def occupiedCount (t : Trip) : Nat :=
  (t.emails.filter (·.isSome)).length

/-- Write both cells of slot `i`. -/
def setSlot (t : Trip) (i : Nat) (e s : Option String) : Trip :=
  { t with emails := setIdx t.emails i e, statuses := setIdx t.statuses i s }

/-- Write only the status cell of slot `i` (the updates that change a
status in place, e.g. marking a slot `"matched"`). -/
def setStatusOnly (t : Trip) (i : Nat) (s : Option String) : Trip :=
  { t with statuses := setIdx t.statuses i s }

/-- Clear both cells of slot `i` (updates writing `null` / `null`). -/
def clearSlot (t : Trip) (i : Nat) : Trip :=
  setSlot t i none none

/-- `supabase.from("trips").update(u).eq("id", rowId)`: apply `f` to every
row whose `id` equals `rowId`. -/
def dbUpdate (w : List Trip) (rowId : String) (f : Trip → Trip) : List Trip :=
  w.map (fun t => if t.id = rowId then f t else t)

/-- Outcome of an endpoint call: `{ok: true}` or `{error}` with its HTTP
status code. -/
inductive ApiResult where
  | ok : ApiResult
  | err : Nat → String → ApiResult
  deriving DecidableEq, Repr

/-- The `"request"` branch of the match-requests endpoint.  `trip` and
`matchTrip` are the two rows read at the start of the call. -/
def requestBranch (w : List Trip) (trip matchTrip : Trip) : ApiResult × List Trip :=
  let requesterSlot := getSlotForEmail trip matchTrip.user_email
  let matchSlot := getSlotForEmail matchTrip trip.user_email
  let slotA := match requesterSlot with
    | none => getEmptySlot trip
    | some i => some i
  let slotB := match matchSlot with
    | none => getEmptySlot matchTrip
    | some j => some j
  match slotA, slotB with
  | some a, some b =>
      let w1 := dbUpdate w trip.id
        (fun t => setSlot t a (some matchTrip.user_email) (some "request_sent"))
      let w2 := dbUpdate w1 matchTrip.id
        (fun t => setSlot t b (some trip.user_email) (some "request_received"))
      (.ok, w2)
  | _, _ => (.err 400 "No available match slots", w)

/-- The `"withdraw"` branch: clear both slots, then cascade-clear any
`partner_approval_needed` slot toward `matchTrip` held by one of `trip`'s
matched partners. -/
def withdrawBranch (w : List Trip) (trip matchTrip : Trip) : ApiResult × List Trip :=
  match getSlotForEmail trip matchTrip.user_email, getSlotForEmail matchTrip trip.user_email with
  | some i, some j =>
      let w1 := dbUpdate w trip.id (fun t => clearSlot t i)
      let w2 := dbUpdate w1 matchTrip.id (fun t => clearSlot t j)
      let matchedPartners := getMatchedPartners trip
      if matchedPartners.isEmpty then (.ok, w2)
      else
        let partnerTrips := w2.filter (fun t =>
          matchedPartners.contains t.user_email &&
          t.direction == trip.direction &&
          t.flight_date == trip.flight_date)
        let w3 := partnerTrips.foldl (fun wacc pt =>
          match getSlotForEmail pt matchTrip.user_email with
          | some k =>
              if (pt.statuses.get? k).join = some "partner_approval_needed" then
                dbUpdate wacc pt.id (fun t => clearSlot t k)
              else wacc
          | none => wacc) w2
        (.ok, w3)
  | _, _ => (.err 404 "Match not found", w)

/-- The `"accept"` branch.  The first path is the pool-vote resolution
(the target slot is itself `partner_approval_needed`); the second path is
the plain accept, which pool-propagates when the requester
(`matchTrip`) already has matched partners. -/
def acceptBranch (w : List Trip) (trip matchTrip : Trip) : ApiResult × List Trip :=
  match getSlotForEmail trip matchTrip.user_email with
  | none => (.err 404 "Match not found", w)
  | some i =>
      let currentStatus := (trip.statuses.get? i).join
      if currentStatus = some "partner_approval_needed" ∧
         hasStatusWithEmail matchTrip trip.user_email "partner_approval_needed" = false then
        let w1 := dbUpdate w trip.id (fun t => clearSlot t i)
        let possibleRequesters := w1.filter (fun t =>
          t.direction == trip.direction && t.flight_date == trip.flight_date)
        match possibleRequesters.find? (fun c =>
            hasStatusWithEmail c trip.user_email "matched" &&
            hasStatusWithEmail c matchTrip.user_email "partner_approval_needed") with
        | none => (.ok, w1)
        | some requesterTrip =>
            let requesterPartners := getMatchedPartners requesterTrip
            let partnerTrips := w1.filter (fun t =>
              requesterPartners.contains t.user_email &&
              t.direction == requesterTrip.direction &&
              t.flight_date == requesterTrip.flight_date)
            let pendingApprovals := partnerTrips.filter (fun pt =>
              match getSlotForEmail pt matchTrip.user_email with
              | some k => (pt.statuses.get? k).join == some "partner_approval_needed"
              | none => false)
            if pendingApprovals.isEmpty then
              match getSlotForEmail requesterTrip matchTrip.user_email,
                    getSlotForEmail matchTrip requesterTrip.user_email with
              | some a, some b =>
                  let w2 := dbUpdate w1 requesterTrip.id
                    (fun t => setStatusOnly t a (some "matched"))
                  let w3 := dbUpdate w2 matchTrip.id
                    (fun t => setStatusOnly t b (some "matched"))
                  (.ok, w3)
              | _, _ => (.ok, w1)
            else (.ok, w1)
      else
        match getSlotForEmail matchTrip trip.user_email with
        | none => (.err 404 "Match not found", w)
        | some j =>
            let requesterPartners := getMatchedPartners matchTrip
            if requesterPartners.isEmpty then
              let w1 := dbUpdate w trip.id (fun t => setStatusOnly t i (some "matched"))
              let w2 := dbUpdate w1 matchTrip.id (fun t => setStatusOnly t j (some "matched"))
              (.ok, w2)
            else
              let w1 := dbUpdate w trip.id
                (fun t => setStatusOnly t i (some "partner_approval_needed"))
              let w2 := dbUpdate w1 matchTrip.id
                (fun t => setStatusOnly t j (some "partner_approval_needed"))
              let partnerTrips := w2.filter (fun t =>
                requesterPartners.contains t.user_email &&
                t.direction == matchTrip.direction &&
                t.flight_date == matchTrip.flight_date)
              let w3 := partnerTrips.foldl (fun wacc pt =>
                let es := match getSlotForEmail pt trip.user_email with
                  | none => getEmptySlot pt
                  | some k => some k
                match es with
                | none => wacc
                | some k => dbUpdate wacc pt.id (fun t =>
                    setSlot t k (some trip.user_email) (some "partner_approval_needed"))) w2
              (.ok, w3)

/-- The `"deny"` branch, including the pool-vote rollback path. -/
def denyBranch (w : List Trip) (trip matchTrip : Trip) : ApiResult × List Trip :=
  match getSlotForEmail trip matchTrip.user_email with
  | none => (.err 404 "Match not found", w)
  | some i =>
      let currentStatus := (trip.statuses.get? i).join
      if currentStatus = some "partner_approval_needed" ∧
         hasStatusWithEmail matchTrip trip.user_email "partner_approval_needed" = false then
        let w1 := dbUpdate w trip.id (fun t => clearSlot t i)
        let possibleRequesters := w1.filter (fun t =>
          t.direction == trip.direction && t.flight_date == trip.flight_date)
        match possibleRequesters.find? (fun c =>
            hasStatusWithEmail c trip.user_email "matched" &&
            hasStatusWithEmail c matchTrip.user_email "partner_approval_needed") with
        | none => (.ok, w1)
        | some requesterTrip =>
            let w2 := match getSlotForEmail requesterTrip matchTrip.user_email with
              | some a => dbUpdate w1 requesterTrip.id (fun t => clearSlot t a)
              | none => w1
            let w3 := match getSlotForEmail matchTrip requesterTrip.user_email with
              | some b => dbUpdate w2 matchTrip.id (fun t => clearSlot t b)
              | none => w2
            let requesterPartners := getMatchedPartners requesterTrip
            let partnerTrips := w3.filter (fun t =>
              requesterPartners.contains t.user_email &&
              t.direction == requesterTrip.direction &&
              t.flight_date == requesterTrip.flight_date)
            let w4 := partnerTrips.foldl (fun wacc pt =>
              match getSlotForEmail pt matchTrip.user_email with
              | some k =>
                  if (pt.statuses.get? k).join = some "partner_approval_needed" then
                    dbUpdate wacc pt.id (fun t => clearSlot t k)
                  else wacc
              | none => wacc) w3
            (.ok, w4)
      else
        match getSlotForEmail matchTrip trip.user_email with
        | none => (.err 404 "Match not found", w)
        | some j =>
            let w1 := dbUpdate w trip.id (fun t => clearSlot t i)
            let w2 := dbUpdate w1 matchTrip.id (fun t => clearSlot t j)
            (.ok, w2)

/-- The `"remove"` branch: clear both slots unconditionally. -/
def removeBranch (w : List Trip) (trip matchTrip : Trip) : ApiResult × List Trip :=
  match getSlotForEmail trip matchTrip.user_email, getSlotForEmail matchTrip trip.user_email with
  | some i, some j =>
      let w1 := dbUpdate w trip.id (fun t => clearSlot t i)
      let w2 := dbUpdate w1 matchTrip.id (fun t => clearSlot t j)
      (.ok, w2)
  | _, _ => (.err 404 "Match not found", w)

/-- The POST handler of `src/app/api/match-requests/route.js`.
`callerEmail` is the email the auth collaborator resolved for the bearer
token (the 401 paths for a missing or invalid token happen before any of
the logic modelled here).  The store is the list `w` of trip rows. -/
def matchRequestsPost (w : List Trip) (callerEmail action tripId matchedTripId : String) :
    ApiResult × List Trip :=
  if action = "" ∨ tripId = "" ∨ matchedTripId = "" then
    (.err 400 "action, tripId, matchedTripId are required", w)
  else
    let rows := w.filter (fun t => t.id == tripId || t.id == matchedTripId)
    if rows.length ≠ 2 then (.err 404 "Trips not found", w)
    else
      match rows.find? (fun t => t.id == tripId), rows.find? (fun t => t.id == matchedTripId) with
      | some trip, some matchTrip =>
          if callerEmail = "" then (.err 404 "Trips not found", w)
          else if (action = "request" ∨ action = "withdraw") ∧
              trip.user_email ≠ callerEmail then
            (.err 403 "Not authorized", w)
          else if (action = "accept" ∨ action = "deny") ∧
              trip.user_email ≠ callerEmail then
            (.err 403 "Not authorized", w)
          else if action = "remove" ∧ trip.user_email ≠ callerEmail ∧
              matchTrip.user_email ≠ callerEmail then
            (.err 403 "Not authorized", w)
          else if action = "request" then requestBranch w trip matchTrip
          else if action = "withdraw" then withdrawBranch w trip matchTrip
          else if action = "accept" then acceptBranch w trip matchTrip
          else if action = "deny" then denyBranch w trip matchTrip
          else if action = "remove" then removeBranch w trip matchTrip
          else (.err 400 "Unsupported action", w)
      | _, _ => (.err 404 "Trips not found", w)

/-! ## Compatibility filter

`allowsSex` and `windowsOverlap` appear verbatim in `src/app/trips/page.tsx`,
`src/unnamed/part_004` and the notification endpoint.  A null/absent
`allowed` column is modelled as the empty string (JavaScript falsiness);
window endpoints are the parsed timestamps, `none` for a null column or an
unparseable string (whose `Date` comparisons are all false). -/

def allowsSex (allowed partnerSex : String) : Bool :=
  if allowed = "" ∨ allowed = "Any" then true
  else if allowed = "Male only" then partnerSex == "Male"
  else if allowed = "Female only" then partnerSex == "Female"
  else if allowed = "Non-binary only" then partnerSex == "Non-binary"
  else false

def windowsOverlap (aStart aEnd bStart bEnd : Option Int) : Bool :=
  match aStart, aEnd, bStart, bEnd with
  | some a1, some a2, some b1, some b2 => decide (a1 ≤ b2) && decide (a2 ≥ b1)
  | _, _, _, _ => false

/-- The candidate filter of `fetchMatchesForTrips` in `src/unnamed/part_004`
(lines 201–210) together with the `eq direction` / `eq flight_date`
conditions of the query feeding it: the pairwise compatibility predicate. -/
def compatibleTrips (a b : Trip) : Bool :=
  b.direction == a.direction && b.flight_date == a.flight_date &&
  windowsOverlap a.window_start a.window_end b.window_start b.window_end &&
  allowsSex a.allowed_partner_sex b.sex && allowsSex b.allowed_partner_sex a.sex

/-! ## Departure window validation (`validateAndComputeWindow`)

Only the departure path matters for the claims below.  `toDateTimeEST` is
abstracted to its result (the parsed flight timestamp in milliseconds,
`none` when the date/time is unparseable), and `parseHours` to its result
(`none` when `Number(value)` is not finite).  Hours may be fractional, so
they are rationals. -/

def msPerHour : ℚ := 3600000

def validateAndComputeWindowDeparture (flightDateTime : Option Int)
    (minHoursBefore maxHoursBefore : Option ℚ) : Except String (ℚ × ℚ) :=
  match flightDateTime with
  | none => .error "Please enter a valid flight date and time."
  | some t =>
      match minHoursBefore, maxHoursBefore with
      | some mn, some mx =>
          if mn < 0 ∨ mx < 0 then .error "Hours before flight must be positive."
          else if mx < mn then
            .error "Maximum hours before flight must be greater than minimum hours."
          else .ok ((t : ℚ) - mx * msPerHour, (t : ℚ) - mn * msPerHour)
      | _, _ => .error "Please enter valid hour ranges for departures."

/-- `handleSubmit` aborts before any store write when the validator
reports an error; on success it inserts the computed window.  The store is
modelled as the list of inserted windows. -/
def handleSubmitDeparture (store : List (ℚ × ℚ)) (flightDateTime : Option Int)
    (minHoursBefore maxHoursBefore : Option ℚ) : Option String × List (ℚ × ℚ) :=
  match validateAndComputeWindowDeparture flightDateTime minHoursBefore maxHoursBefore with
  | .error e => (some e, store)
  | .ok win => (none, store ++ [win])

/-! ## Candidate pipeline of the trips page (`fetchMatchesForTrips`) -/

/-- The six `(match_email_i, match_status_i)` cell pairs of a row. -/
def slotPairs (t : Trip) : List (Option String × Option String) :=
  t.emails.zip t.statuses

/-- `hasConfirmedMatchWith` from `src/app/trips/page.tsx`: some slot holds
`otherEmail` with status `"matched"`. -/
def hasConfirmedMatchWith (t : Trip) (otherEmail : String) : Bool :=
  (slotPairs t).any (fun p => p.1 == some otherEmail && p.2 == some "matched")

/-- Candidate query: same direction and date, other owners. -/
def candidateQuery (w : List Trip) (viewerEmail : String) (trip : Trip) : List Trip :=
  w.filter (fun t =>
    t.direction == trip.direction && t.flight_date == trip.flight_date &&
    t.user_email != viewerEmail)

/-- Profile lookup (`profileMap.get(candidate.user_email)?.sex`): the
profiles table reduced to the email → sex column. -/
def profileSexOf (profiles : List (String × String)) (e : String) : Option String :=
  (profiles.find? (fun p => p.1 == e)).map (·.2)

/-- The sort key of the enriched list: `diffMinutes(trip.flight_date,
trip.flight_time, candidate.flight_time)`; `none` plays the role of
`Number.POSITIVE_INFINITY` for unparseable times. -/
def diffKey (trip c : Trip) : Option Int :=
  match trip.flight_time, c.flight_time with
  | some a, some b => some (max (a - b) (b - a))
  | _, _ => none

def keyLE : Option Int → Option Int → Bool
  | _, none => true
  | none, some _ => false
  | some a, some b => decide (a ≤ b)

def insertByKey (key : Trip → Option Int) (x : Trip) : List Trip → List Trip
  | [] => [x]
  | y :: ys => if keyLE (key x) (key y) then x :: y :: ys else y :: insertByKey key x ys

/-- Comparator sort of the enriched candidate list (closest scheduled time
first).  Membership, the only aspect the claims touch, agrees with any
sorting algorithm. -/
def sortByKey (key : Trip → Option Int) : List Trip → List Trip
  | [] => []
  | x :: xs => insertByKey key x (sortByKey key xs)

/-- The `potentialCandidates` filter (lines 351–376 of
`src/app/trips/page.tsx`). -/
def potentialFilter (trip : Trip) (viewerSex : Option String)
    (profiles : List (String × String)) (confirmed : List String) (c : Trip) : Bool :=
  if confirmed.contains c.user_email then false
  else if c.trip_status == some "Matched and satisfied" then false
  else if !(windowsOverlap trip.window_start trip.window_end c.window_start c.window_end) then
    false
  else
    match profileSexOf profiles c.user_email with
    | none => false
    | some s =>
        if s = "" then false
        else allowsSex trip.allowed_partner_sex s &&
             allowsSex c.allowed_partner_sex (viewerSex.getD "")

/-- The `paired` filter: drop a candidate holding a `"matched"` slot toward
anyone absent from the potential list. -/
def pairedOk (potential : List Trip) (c : Trip) : Bool :=
  (slotPairs c).all (fun p =>
    match p with
    | (some e, some st) =>
        if st = "matched" ∧ e ≠ "" then
          (potential.find? (fun item => item.user_email == e)).isSome
        else true
    | _ => true)

/-- The `finalList` filter: any matched partner who is in the list must
confirm the match back. -/
def finalOk (paired : List Trip) (emailsInList : List String) (c : Trip) : Bool :=
  (slotPairs c).all (fun p =>
    match p with
    | (some e, some st) =>
        if st = "matched" ∧ e ≠ "" ∧ emailsInList.contains e then
          match paired.find? (fun item => item.user_email == e) with
          | none => false
          | some pc => hasConfirmedMatchWith pc c.user_email
        else true
    | _ => true)

/-- The `potentialCandidates` stage of `fetchMatchesForTrips`: the
queried candidates, sorted by time proximity, restricted by the
per-candidate filter. -/
def potentialCandidatesOf (w : List Trip) (viewerEmail : String) (viewerSex : Option String)
    (profiles : List (String × String)) (trip : Trip) : List Trip :=
  (sortByKey (fun c => diffKey trip c) (candidateQuery w viewerEmail trip)).filter
    (potentialFilter trip viewerSex profiles (getMatchedPartners trip))

/-- The full per-trip pipeline of `fetchMatchesForTrips` in
`src/app/trips/page.tsx`: the list rendered for the viewer
(`[...confirmedCandidates, ...finalList]`). -/
def openCandidateList (w : List Trip) (viewerEmail : String) (viewerSex : Option String)
    (profiles : List (String × String)) (trip : Trip) : List Trip :=
  let confirmed := getMatchedPartners trip
  let enriched := sortByKey (fun c => diffKey trip c) (candidateQuery w viewerEmail trip)
  let confirmedCandidates := enriched.filter (fun c => confirmed.contains c.user_email)
  let potential := potentialCandidatesOf w viewerEmail viewerSex profiles trip
  let paired := potential.filter (pairedOk potential)
  let emailsInList := paired.map (·.user_email)
  let finalList := paired.filter (finalOk paired emailsInList)
  confirmedCandidates ++ finalList

/-! ## Trip-status synchronizer (the endpoint appended to
`src/app/auth/callback/page.js`) -/

/-- The `orFilters` disjunction of the synchronizer's query: some slot `i`
holds `e` in `match_email_i` with `"matched"` in `match_status_i`. -/
def mirrorsMatched (t : Trip) (e : String) : Bool :=
  (slotPairs t).any (fun p => p.1 == some e && p.2 == some "matched")

/-- The POST handler of the trip-status-sync endpoint.  The `Promise.all`
of per-row updates is applied sequentially; each update only touches the
rows with the listed id, so the order is immaterial. -/
def tripStatusSyncPost (w : List Trip) (callerEmail tripId status : String) :
    ApiResult × List Trip :=
  if tripId = "" ∨ status = "" then
    (.err 400 "tripId and trip_status are required", w)
  else
    match w.find? (fun t => t.id == tripId) with
    | none => (.err 404 "Trip not found", w)
    | some trip =>
        if trip.user_email ≠ callerEmail then (.err 403 "Not authorized", w)
        else
          let matchedEmails := getMatchedPartners trip
          let peerIds :=
            if matchedEmails.isEmpty then []
            else (w.filter (fun t =>
              matchedEmails.contains t.user_email &&
              mirrorsMatched t trip.user_email)).map (·.id)
          let updates := trip.id :: peerIds
          let w2 := updates.foldl
            (fun wacc i => dbUpdate wacc i (fun t => { t with trip_status := some status })) w
          (.ok, w2)

/-! ## New-match notifier (the endpoint appended to `src/app/trips/page.tsx`)

The email collaborator is modelled as always succeeding (every
`sendNotification` returns no error), and so is every store access, which
is the situation the claims describe.  The de-duplication ledger is the
list of `(trip_id, matched_trip_id)` rows of `match_notifications`. -/

/-- Compatibility filter of the notification endpoint (window overlap and
mutual consent over the `sex` columns of the trip rows themselves). -/
def notifCompatibleFilter (trip c : Trip) : Bool :=
  windowsOverlap trip.window_start trip.window_end c.window_start c.window_end &&
  allowsSex trip.allowed_partner_sex c.sex && allowsSex c.allowed_partner_sex trip.sex

/-- One iteration of the candidate loop.  The state is
`(ledger, sent notifications)`; every send appends the same directed pair
to both. -/
def processCandidate (trip : Trip) (isNewTrip : Bool) (baseline : Int)
    (st : List (String × String) × List (String × String)) (c : Trip) :
    List (String × String) × List (String × String) :=
  let st1 :=
    if baseline < c.created_at ∧ (trip.id, c.id) ∉ st.1 then
      (st.1 ++ [(trip.id, c.id)], st.2 ++ [(trip.id, c.id)])
    else st
  let otherBaseline := c.baseline_match_check_at.getD c.created_at
  let st2 :=
    if isNewTrip = false ∧ otherBaseline < trip.created_at ∧ (c.id, trip.id) ∉ st1.1 then
      (st1.1 ++ [(c.id, trip.id)], st1.2 ++ [(c.id, trip.id)])
    else st1
  if isNewTrip = true ∧ otherBaseline < trip.created_at ∧ (c.id, trip.id) ∉ st2.1 then
    (st2.1 ++ [(c.id, trip.id)], st2.2 ++ [(c.id, trip.id)])
  else st2

/-- The POST handler of the notification endpoint.  Returns the sent
notifications, the grown ledger and the trip's baseline after the call
(`none` is only possible for an absent trip). -/
def matchNotificationsPost (w : List Trip) (ledger : List (String × String))
    (tripId : String) (now : Int) :
    Option (List (String × String) × List (String × String) × Option Int) :=
  match w.find? (fun t => t.id == tripId) with
  | none => none
  | some trip =>
      let isNewTrip := trip.baseline_match_check_at.isNone
      let baseline := trip.baseline_match_check_at.getD now
      let candidates := w.filter (fun t =>
        t.direction == trip.direction && t.flight_date == trip.flight_date &&
        t.id != trip.id && t.user_email != trip.user_email)
      let compatible := candidates.filter (notifCompatibleFilter trip)
      let st := compatible.foldl (processCandidate trip isNewTrip baseline) (ledger, [])
      some (st.2, st.1, some baseline)

/-! ## Concrete rows used by the counterexamples -/

/-- A trip row with the default scalar columns; only the identity and the
match slots vary across the concrete scenarios. -/
def baseTrip (id owner : String) (es ss : List (Option String)) : Trip :=
  { id := id, user_email := owner, sex := "Male",
    direction := "Departing Pittsburgh", flight_date := "2024-05-10",
    flight_time := some 0, allowed_partner_sex := "Any", trip_status := none,
    window_start := some 0, window_end := some 10, created_at := 0,
    baseline_match_check_at := none, emails := es, statuses := ss }

/-- Scenario 4 of the spec: target tina is already matched with pam and has
received a request from ray. -/
def tripTgt : Trip :=
  baseTrip "t" "tina" [some "pam", some "ray", none, none, none, none]
    [some "matched", some "request_received", none, none, none, none]

def tripReq : Trip :=
  baseTrip "r" "ray" [some "tina", none, none, none, none, none]
    [some "request_sent", none, none, none, none, none]

def tripPartner : Trip :=
  baseTrip "p" "pam" [some "tina", none, none, none, none, none]
    [some "matched", none, none, none, none, none]

/-- An already-confirmed pair: alice and bob hold mutual matched slots. -/
def tripAlice : Trip :=
  baseTrip "a" "alice" [some "bob", none, none, none, none, none]
    [some "matched", none, none, none, none, none]

def tripBob : Trip :=
  baseTrip "b" "bob" [some "alice", none, none, none, none, none]
    [some "matched", none, none, none, none, none]

/-- Capacity scenario: requester rob is in a pool with pia, whose six
slots are all occupied; tara has received rob's request. -/
def tripTara : Trip :=
  baseTrip "t2" "tara" [some "rob", none, none, none, none, none]
    [some "request_received", none, none, none, none, none]

def tripRob : Trip :=
  baseTrip "r2" "rob" [some "tara", some "pia", none, none, none, none]
    [some "request_sent", some "matched", none, none, none, none]

def tripPia : Trip :=
  baseTrip "p2" "pia"
    [some "e1", some "e2", some "e3", some "e4", some "e5", some "rob"]
    [some "matched", some "matched", some "matched", some "matched",
     some "matched", some "matched"]

/-! ## C4 — compatibility is symmetric -/

/-- C4: the compatibility predicate — same direction, same date, window
overlap tested as `aStart <= bEnd AND aEnd >= bStart`, and mutual
partner-sex consent via `allowsSex` in both directions — yields the same
boolean when the two trips are exchanged. -/
theorem compatibleTrips_symm (a b : Trip) : compatibleTrips a b = compatibleTrips b a := by
  unfold compatibleTrips windowsOverlap
  cases a.window_start <;> cases a.window_end <;>
    cases b.window_start <;> cases b.window_end <;>
    · rw [Bool.eq_iff_iff]
      simp only [Bool.and_eq_true, decide_eq_true_eq, beq_iff_eq, ge_iff_le]
      constructor <;> intro h <;> tauto

/-! ## C5 — departure window computation and validation -/

/-- Reduction of the validator at fully-parsed departure inputs. -/
theorem validateWindow_some_eq (t : Int) (mn mx : ℚ) :
    validateAndComputeWindowDeparture (some t) (some mn) (some mx) =
      if mn < 0 ∨ mx < 0 then .error "Hours before flight must be positive."
      else if mx < mn then
        .error "Maximum hours before flight must be greater than minimum hours."
      else .ok ((t : ℚ) - mx * msPerHour, (t : ℚ) - mn * msPerHour) := rfl

/-- C5: for a departure submission with parsed flight timestamp `t` (in
milliseconds) and finite hour parameters, the computed window is
`[t − maxHoursBefore, t − minHoursBefore]` (hours scaled to milliseconds),
and the submission is rejected before any store write unless
`maxHoursBefore ≥ minHoursBefore ≥ 0`. -/
theorem validateWindow_departure_ok (t : Int) (mn mx : ℚ) :
    (0 ≤ mn ∧ mn ≤ mx →
      validateAndComputeWindowDeparture (some t) (some mn) (some mx) =
        .ok ((t : ℚ) - mx * msPerHour, (t : ℚ) - mn * msPerHour)) ∧
    (¬(0 ≤ mn ∧ mn ≤ mx) → ∀ store,
      ∃ e, handleSubmitDeparture store (some t) (some mn) (some mx) = (some e, store)) := by
  constructor
  · rintro ⟨h0, h1⟩
    rw [validateWindow_some_eq, if_neg, if_neg]
    · exact not_lt.mpr h1
    · push_neg
      exact ⟨h0, h0.trans h1⟩
  · intro h store
    unfold handleSubmitDeparture
    rw [validateWindow_some_eq]
    by_cases hneg : mn < 0 ∨ mx < 0
    · rw [if_pos hneg]
      exact ⟨_, rfl⟩
    · have hlt : mx < mn := by
        push_neg at h hneg
        exact h hneg.1
      rw [if_neg hneg, if_pos hlt]
      exact ⟨_, rfl⟩

/-- Witness for C5, matching Scenario 1 of the spec: a 14:00 departure
with minHours = 2 and maxHours = 4 yields the window [10:00, 12:00]
(times in milliseconds from the start of the day). -/
theorem validateWindow_departure_witness :
    validateAndComputeWindowDeparture (some (14 * 3600000)) (some 2) (some 4) =
      .ok ((10 : ℚ) * 3600000, (12 : ℚ) * 3600000) := by
  have h := (validateWindow_departure_ok (14 * 3600000) 2 4).1 (by norm_num)
  rw [h]
  norm_num [msPerHour]

/-! ## C1 — pool join on accept (counterexample) -/

/-- C1 (counterexample): with tina already matched to pam and ray's
request pending, tina's accept does NOT move the slots to
partner-approval-needed and does NOT write any slot onto pam's trip — it
marks both slots "matched" directly and leaves pam's row untouched,
because the code keys the pool join on the requester's matched partners,
not the target's. -/
theorem accept_target_pool_counterexample :
    matchRequestsPost [tripTgt, tripReq, tripPartner] "tina" "accept" "t" "r" =
      (.ok,
        [setStatusOnly tripTgt 1 (some "matched"),
         setStatusOnly tripReq 0 (some "matched"),
         tripPartner]) ∧
    statusToward (setStatusOnly tripTgt 1 (some "matched")) "ray" = some "matched" ∧
    statusToward (setStatusOnly tripReq 0 (some "matched")) "tina" = some "matched" := by
  exact ⟨rfl, rfl, rfl⟩

/-! ## C2 — accept on an already-matched pair is not idempotent -/

/-- C2 (failing input): re-invoking accept on the already-matched pair
(alice, bob) returns success but rewrites both matched slots to
partner-approval-needed and even copies alice's own email into her second
slot: the state of both trips changes, contradicting the required
idempotence. -/
theorem accept_already_matched_mutates :
    matchRequestsPost [tripAlice, tripBob] "alice" "accept" "a" "b" =
      (.ok,
        [setSlot (setStatusOnly tripAlice 0 (some "partner_approval_needed")) 1
           (some "alice") (some "partner_approval_needed"),
         setStatusOnly tripBob 0 (some "partner_approval_needed")]) ∧
    (matchRequestsPost [tripAlice, tripBob] "alice" "accept" "a" "b").2 ≠
      [tripAlice, tripBob] := by
  exact ⟨rfl, by decide⟩

/-! ## C3 — capacity on the accept pool propagation (counterexample) -/

/-- C3 (counterexample): pia's trip is at the six-slot ceiling, so tara's
accept of rob would need a seventh slot on pia's row; instead of failing
with a capacity error and leaving every trip unmutated, the call returns
success, mutates tara's and rob's rows, and silently skips pia. -/
theorem accept_capacity_counterexample :
    (matchRequestsPost [tripTara, tripRob, tripPia] "tara" "accept" "t2" "r2").1 = .ok ∧
    (matchRequestsPost [tripTara, tripRob, tripPia] "tara" "accept" "t2" "r2").2 ≠
      [tripTara, tripRob, tripPia] ∧
    occupiedCount tripPia = 6 := by
  exact ⟨rfl, by decide, rfl⟩

/-! ## Dispatch lemmas for the match-requests endpoint

Under the usual read hypotheses (the two referenced rows exist, have the
referenced ids and distinct ids), the handler reduces to the branch
selected by the action once the authorization check passes. -/

theorem matchRequestsPost_run_accept
    (w : List Trip) (trip matchTrip : Trip) (tripId matchedTripId : String)
    (h1 : w.filter (fun t => t.id == tripId || t.id == matchedTripId) = [trip, matchTrip])
    (h2 : trip.id = tripId) (h3 : matchTrip.id = matchedTripId) (h4 : tripId ≠ matchedTripId)
    (h5 : tripId ≠ "") (h6 : matchedTripId ≠ "") (hcall : trip.user_email ≠ "") :
    matchRequestsPost w trip.user_email "accept" tripId matchedTripId =
      acceptBranch w trip matchTrip := by
  have hb1 : (trip.id == tripId) = true := by simp [h2]
  have hb2 : (trip.id == matchedTripId) = false := by simp [h2, h4]
  have hb3 : (matchTrip.id == matchedTripId) = true := by simp [h3]
  simp [matchRequestsPost, h1, List.find?, hb1, hb2, hb3, h5, h6, hcall]

theorem matchRequestsPost_run_request
    (w : List Trip) (trip matchTrip : Trip) (tripId matchedTripId : String)
    (h1 : w.filter (fun t => t.id == tripId || t.id == matchedTripId) = [trip, matchTrip])
    (h2 : trip.id = tripId) (h3 : matchTrip.id = matchedTripId) (h4 : tripId ≠ matchedTripId)
    (h5 : tripId ≠ "") (h6 : matchedTripId ≠ "") (hcall : trip.user_email ≠ "") :
    matchRequestsPost w trip.user_email "request" tripId matchedTripId =
      requestBranch w trip matchTrip := by
  have hb1 : (trip.id == tripId) = true := by simp [h2]
  have hb2 : (trip.id == matchedTripId) = false := by simp [h2, h4]
  have hb3 : (matchTrip.id == matchedTripId) = true := by simp [h3]
  simp [matchRequestsPost, h1, List.find?, hb1, hb2, hb3, h5, h6, hcall]

theorem matchRequestsPost_run_remove
    (w : List Trip) (trip matchTrip : Trip) (tripId matchedTripId caller : String)
    (h1 : w.filter (fun t => t.id == tripId || t.id == matchedTripId) = [trip, matchTrip])
    (h2 : trip.id = tripId) (h3 : matchTrip.id = matchedTripId) (h4 : tripId ≠ matchedTripId)
    (h5 : tripId ≠ "") (h6 : matchedTripId ≠ "") (hcall : caller ≠ "")
    (hown : trip.user_email = caller ∨ matchTrip.user_email = caller) :
    matchRequestsPost w caller "remove" tripId matchedTripId =
      removeBranch w trip matchTrip := by
  have hb1 : (trip.id == tripId) = true := by simp [h2]
  have hb2 : (trip.id == matchedTripId) = false := by simp [h2, h4]
  have hb3 : (matchTrip.id == matchedTripId) = true := by simp [h3]
  rcases hown with h | h <;>
    simp [matchRequestsPost, h1, List.find?, hb1, hb2, hb3, h5, h6, hcall, h]

theorem matchRequestsPost_run_accept_rev
    (w : List Trip) (trip matchTrip : Trip) (tripId matchedTripId : String)
    (h1 : w.filter (fun t => t.id == tripId || t.id == matchedTripId) = [matchTrip, trip])
    (h2 : trip.id = tripId) (h3 : matchTrip.id = matchedTripId) (h4 : tripId ≠ matchedTripId)
    (h5 : tripId ≠ "") (h6 : matchedTripId ≠ "") (hcall : trip.user_email ≠ "") :
    matchRequestsPost w trip.user_email "accept" tripId matchedTripId =
      acceptBranch w trip matchTrip := by
  have hb1 : (trip.id == tripId) = true := by simp [h2]
  have hb4 : (matchTrip.id == tripId) = false := by
    simp only [beq_eq_false_iff_ne, ne_eq, h3]
    exact fun hx => h4 hx.symm
  have hb3 : (matchTrip.id == matchedTripId) = true := by simp [h3]
  simp [matchRequestsPost, h1, List.find?, hb1, hb3, hb4, h5, h6, hcall]

/-! ## C9 — authorization rules -/

/-- C9: request, withdraw, accept and deny are rejected with a 403
"Not authorized" response and no mutation unless the caller owns the trip
identified by `tripId`; remove passes authorization when the caller owns
either referenced trip (an authorized remove can only fail with a 404,
never a 403). -/
theorem matchRequests_authorization
    (w : List Trip) (trip matchTrip : Trip) (tripId matchedTripId caller action : String)
    (h1 : w.filter (fun t => t.id == tripId || t.id == matchedTripId) = [trip, matchTrip])
    (h2 : trip.id = tripId) (h3 : matchTrip.id = matchedTripId) (h4 : tripId ≠ matchedTripId)
    (h5 : tripId ≠ "") (h6 : matchedTripId ≠ "") (hcall : caller ≠ "") :
    ((action = "request" ∨ action = "withdraw" ∨ action = "accept" ∨ action = "deny") →
      trip.user_email ≠ caller →
      matchRequestsPost w caller action tripId matchedTripId =
        (.err 403 "Not authorized", w)) ∧
    (trip.user_email ≠ caller → matchTrip.user_email ≠ caller →
      matchRequestsPost w caller "remove" tripId matchedTripId =
        (.err 403 "Not authorized", w)) ∧
    ((trip.user_email = caller ∨ matchTrip.user_email = caller) →
      ∀ n msg, (matchRequestsPost w caller "remove" tripId matchedTripId).1 = .err n msg →
        n = 404) := by
  have hb1 : (trip.id == tripId) = true := by simp [h2]
  have hb2 : (trip.id == matchedTripId) = false := by simp [h2, h4]
  have hb3 : (matchTrip.id == matchedTripId) = true := by simp [h3]
  refine ⟨?_, ?_, ?_⟩
  · intro ha hne
    rcases ha with h | h | h | h <;> subst h <;>
      simp [matchRequestsPost, h1, List.find?, hb1, hb2, hb3, h5, h6, hcall, hne]
  · intro hne1 hne2
    simp [matchRequestsPost, h1, List.find?, hb1, hb2, hb3, h5, h6, hcall, hne1, hne2]
  · intro hown n msg heq
    rw [matchRequestsPost_run_remove w trip matchTrip tripId matchedTripId caller
      h1 h2 h3 h4 h5 h6 hcall hown] at heq
    unfold removeBranch at heq
    rcases hga : getSlotForEmail trip matchTrip.user_email with _ | i <;>
      rcases hgb : getSlotForEmail matchTrip trip.user_email with _ | j <;>
      rw [hga, hgb] at heq <;> simp_all

/-! ## C1 — the pool join keyed on the requester's partners -/

/-- Effect of the accept call when the requester `R` already has a matched
partner `P` (slot layouts fixed, identities abstract): both principal
slots move to partner-approval-needed and `P` gains a
partner-approval-needed slot referencing `T`'s owner in its first empty
slot. -/
theorem acceptBranch_pool_join_step
    (T R P : Trip)
    (hTe : T.emails = [some R.user_email, none, none, none, none, none])
    (hTs : T.statuses = [some "request_received", none, none, none, none, none])
    (hRe : R.emails = [some T.user_email, some P.user_email, none, none, none, none])
    (hRs : R.statuses = [some "request_sent", some "matched", none, none, none, none])
    (hPe : P.emails = [some R.user_email, none, none, none, none, none])
    (hPs : P.statuses = [some "matched", none, none, none, none, none])
    (hdir1 : R.direction = T.direction) (hdir2 : P.direction = T.direction)
    (hdate1 : R.flight_date = T.flight_date) (hdate2 : P.flight_date = T.flight_date)
    (hid1 : T.id ≠ R.id) (hid2 : T.id ≠ P.id) (hid3 : R.id ≠ P.id)
    (he1 : T.user_email ≠ R.user_email) (he2 : T.user_email ≠ P.user_email)
    (he3 : R.user_email ≠ P.user_email) :
    acceptBranch [T, R, P] T R =
      (.ok,
        [setStatusOnly T 0 (some "partner_approval_needed"),
         setStatusOnly R 0 (some "partner_approval_needed"),
         setSlot P 1 (some T.user_email) (some "partner_approval_needed")]) := by
  have b1 : (T.user_email == R.user_email) = false := by simp [he1]
  have b2 : (R.user_email == T.user_email) = false := by simp [Ne.symm he1]
  have b3 : (T.user_email == P.user_email) = false := by simp [he2]
  have b4 : (P.user_email == T.user_email) = false := by simp [Ne.symm he2]
  have b5 : (R.user_email == P.user_email) = false := by simp [he3]
  have b6 : (P.user_email == R.user_email) = false := by simp [Ne.symm he3]
  have d1 : (T.id == R.id) = false := by simp [hid1]
  have d2 : (R.id == T.id) = false := by simp [Ne.symm hid1]
  have d3 : (T.id == P.id) = false := by simp [hid2]
  have d4 : (P.id == T.id) = false := by simp [Ne.symm hid2]
  have d5 : (R.id == P.id) = false := by simp [hid3]
  have d6 : (P.id == R.id) = false := by simp [Ne.symm hid3]
  simp [acceptBranch, getSlotForEmail, findSlotIdx, getEmptySlot, findEmptyIdx,
    getMatchedPartners, matchedPartnersAux, hasStatusWithEmail, dbUpdate,
    setStatusOnly, setSlot, setIdx, clearSlot, List.contains, List.elem,
    hTe, hTs, hRe, hRs, hPe, hPs, hdir1, hdir2, hdate1, hdate2,
    he1, he2, he3, Ne.symm he1, Ne.symm he2, Ne.symm he3,
    hid1, hid2, hid3, Ne.symm hid1, Ne.symm hid2, Ne.symm hid3,
    b1, b2, b3, b4, b5, b6, d1, d2, d3, d4, d5, d6]

/-- Effect of partner `P`'s subsequent approving vote: `P`'s
partner-approval-needed slot toward `T`'s owner is cleared and the
`R` ↔ `T` slots finalize to "matched". -/
theorem acceptBranch_pool_vote_step
    (T R P : Trip)
    (hTe : T.emails = [some R.user_email, none, none, none, none, none])
    (hTs : T.statuses = [some "request_received", none, none, none, none, none])
    (hRe : R.emails = [some T.user_email, some P.user_email, none, none, none, none])
    (hRs : R.statuses = [some "request_sent", some "matched", none, none, none, none])
    (hPe : P.emails = [some R.user_email, none, none, none, none, none])
    (hPs : P.statuses = [some "matched", none, none, none, none, none])
    (hdir1 : R.direction = T.direction) (hdir2 : P.direction = T.direction)
    (hdate1 : R.flight_date = T.flight_date) (hdate2 : P.flight_date = T.flight_date)
    (hid1 : T.id ≠ R.id) (hid2 : T.id ≠ P.id) (hid3 : R.id ≠ P.id)
    (he1 : T.user_email ≠ R.user_email) (he2 : T.user_email ≠ P.user_email)
    (he3 : R.user_email ≠ P.user_email) :
    acceptBranch
      [setStatusOnly T 0 (some "partner_approval_needed"),
       setStatusOnly R 0 (some "partner_approval_needed"),
       setSlot P 1 (some T.user_email) (some "partner_approval_needed")]
      (setSlot P 1 (some T.user_email) (some "partner_approval_needed"))
      (setStatusOnly T 0 (some "partner_approval_needed")) =
      (.ok,
        [setStatusOnly T 0 (some "matched"),
         setStatusOnly R 0 (some "matched"),
         clearSlot (setSlot P 1 (some T.user_email) (some "partner_approval_needed")) 1]) := by
  have b1 : (T.user_email == R.user_email) = false := by simp [he1]
  have b2 : (R.user_email == T.user_email) = false := by simp [Ne.symm he1]
  have b3 : (T.user_email == P.user_email) = false := by simp [he2]
  have b4 : (P.user_email == T.user_email) = false := by simp [Ne.symm he2]
  have b5 : (R.user_email == P.user_email) = false := by simp [he3]
  have b6 : (P.user_email == R.user_email) = false := by simp [Ne.symm he3]
  have d1 : (T.id == R.id) = false := by simp [hid1]
  have d2 : (R.id == T.id) = false := by simp [Ne.symm hid1]
  have d3 : (T.id == P.id) = false := by simp [hid2]
  have d4 : (P.id == T.id) = false := by simp [Ne.symm hid2]
  have d5 : (R.id == P.id) = false := by simp [hid3]
  have d6 : (P.id == R.id) = false := by simp [Ne.symm hid3]
  simp [acceptBranch, getSlotForEmail, findSlotIdx, getEmptySlot, findEmptyIdx,
    getMatchedPartners, matchedPartnersAux, hasStatusWithEmail, dbUpdate,
    setStatusOnly, setSlot, setIdx, clearSlot, List.contains, List.elem,
    hTe, hTs, hRe, hRs, hPe, hPs, hdir1, hdir2, hdate1, hdate2,
    he1, he2, he3, Ne.symm he1, Ne.symm he2, Ne.symm he3,
    hid1, hid2, hid3, Ne.symm hid1, Ne.symm hid2, Ne.symm hid3,
    b1, b2, b3, b4, b5, b6, d1, d2, d3, d4, d5, d6]

/-- C1 (amended): with `R` the requester already matched to partner `P`
(slot layouts fixed, identities abstract), `T`'s accept marks `R`'s and
`T`'s slots toward each other "partner-approval-needed" instead of
"matched" and writes a "partner-approval-needed" slot referencing `T`'s
owner (not `R`'s) onto `P`'s first empty slot; at that point no slot
between the three is matched toward `T`, and the `R` ↔ `T` slots become
"matched" only after `P` approves.  The pool-join trigger is the
requester's partner set, and the propagated slot references the acceptor. -/
theorem accept_pool_join_amended
    (T R P : Trip)
    (hTe : T.emails = [some R.user_email, none, none, none, none, none])
    (hTs : T.statuses = [some "request_received", none, none, none, none, none])
    (hRe : R.emails = [some T.user_email, some P.user_email, none, none, none, none])
    (hRs : R.statuses = [some "request_sent", some "matched", none, none, none, none])
    (hPe : P.emails = [some R.user_email, none, none, none, none, none])
    (hPs : P.statuses = [some "matched", none, none, none, none, none])
    (hdir1 : R.direction = T.direction) (hdir2 : P.direction = T.direction)
    (hdate1 : R.flight_date = T.flight_date) (hdate2 : P.flight_date = T.flight_date)
    (hid1 : T.id ≠ R.id) (hid2 : T.id ≠ P.id) (hid3 : R.id ≠ P.id)
    (hidT : T.id ≠ "") (hidR : R.id ≠ "") (hidP : P.id ≠ "")
    (he1 : T.user_email ≠ R.user_email) (he2 : T.user_email ≠ P.user_email)
    (he3 : R.user_email ≠ P.user_email)
    (hcT : T.user_email ≠ "") (hcP : P.user_email ≠ "") :
    matchRequestsPost [T, R, P] T.user_email "accept" T.id R.id =
      (.ok,
        [setStatusOnly T 0 (some "partner_approval_needed"),
         setStatusOnly R 0 (some "partner_approval_needed"),
         setSlot P 1 (some T.user_email) (some "partner_approval_needed")]) ∧
    statusToward (setStatusOnly T 0 (some "partner_approval_needed")) R.user_email =
      some "partner_approval_needed" ∧
    statusToward (setStatusOnly R 0 (some "partner_approval_needed")) T.user_email =
      some "partner_approval_needed" ∧
    statusToward (setSlot P 1 (some T.user_email) (some "partner_approval_needed"))
      T.user_email = some "partner_approval_needed" ∧
    statusToward (setSlot P 1 (some T.user_email) (some "partner_approval_needed"))
      R.user_email = some "matched" ∧
    matchRequestsPost
      [setStatusOnly T 0 (some "partner_approval_needed"),
       setStatusOnly R 0 (some "partner_approval_needed"),
       setSlot P 1 (some T.user_email) (some "partner_approval_needed")]
      P.user_email "accept" P.id T.id =
      (.ok,
        [setStatusOnly T 0 (some "matched"),
         setStatusOnly R 0 (some "matched"),
         clearSlot (setSlot P 1 (some T.user_email) (some "partner_approval_needed")) 1]) ∧
    statusToward (setStatusOnly T 0 (some "matched")) R.user_email = some "matched" ∧
    statusToward (setStatusOnly R 0 (some "matched")) T.user_email = some "matched" := by
  have d2 : (R.id == T.id) = false := by simp [Ne.symm hid1]
  have d3 : (T.id == P.id) = false := by simp [hid2]
  have d4 : (P.id == T.id) = false := by simp [Ne.symm hid2]
  have d5 : (R.id == P.id) = false := by simp [hid3]
  have d6 : (P.id == R.id) = false := by simp [Ne.symm hid3]
  have hfil1 : ([T, R, P].filter (fun t => t.id == T.id || t.id == R.id)) = [T, R] := by
    simp [List.filter, d4, d6]
  have hrun1 := matchRequestsPost_run_accept [T, R, P] T R T.id R.id hfil1 rfl rfl
    hid1 hidT hidR hcT
  have hstep1 := acceptBranch_pool_join_step T R P hTe hTs hRe hRs hPe hPs
    hdir1 hdir2 hdate1 hdate2 hid1 hid2 hid3 he1 he2 he3
  have hfil2 :
      ([setStatusOnly T 0 (some "partner_approval_needed"),
        setStatusOnly R 0 (some "partner_approval_needed"),
        setSlot P 1 (some T.user_email) (some "partner_approval_needed")].filter
          (fun t => t.id == P.id || t.id == T.id)) =
        [setStatusOnly T 0 (some "partner_approval_needed"),
         setSlot P 1 (some T.user_email) (some "partner_approval_needed")] := by
    simp [List.filter, setStatusOnly, setSlot, d2, d3, d5]
  have hrun2 := matchRequestsPost_run_accept_rev _ _ _ P.id T.id hfil2 rfl rfl
    (Ne.symm hid2) hidP hidT hcP
  have hstep2 := acceptBranch_pool_vote_step T R P hTe hTs hRe hRs hPe hPs
    hdir1 hdir2 hdate1 hdate2 hid1 hid2 hid3 he1 he2 he3
  refine ⟨hrun1.trans hstep1, ?_, ?_, ?_, ?_, hrun2.trans hstep2, ?_, ?_⟩ <;>
    simp [statusToward, getSlotForEmail, findSlotIdx, setStatusOnly, setSlot, setIdx,
      hTe, hTs, hRe, hRs, hPe, hPs, he1, he2, he3,
      Ne.symm he1, Ne.symm he2, Ne.symm he3]

/-- Concrete instances of the amended pool-join layout: rick (requester)
is matched with pola; tess has received rick's request. -/
def tripTess : Trip :=
  baseTrip "t3" "tess" [some "rick", none, none, none, none, none]
    [some "request_received", none, none, none, none, none]

def tripRick : Trip :=
  baseTrip "r3" "rick" [some "tess", some "pola", none, none, none, none]
    [some "request_sent", some "matched", none, none, none, none]

def tripPola : Trip :=
  baseTrip "p3" "pola" [some "rick", none, none, none, none, none]
    [some "matched", none, none, none, none, none]

/-- Witness for C1 (amended) at a concrete input. -/
theorem accept_pool_join_amended_witness :
    matchRequestsPost [tripTess, tripRick, tripPola] "tess" "accept" "t3" "r3" =
      (.ok,
        [setStatusOnly tripTess 0 (some "partner_approval_needed"),
         setStatusOnly tripRick 0 (some "partner_approval_needed"),
         setSlot tripPola 1 (some "tess") (some "partner_approval_needed")]) :=
  (accept_pool_join_amended tripTess tripRick tripPola rfl rfl rfl rfl rfl rfl
    rfl rfl rfl rfl (by decide) (by decide) (by decide) (by decide) (by decide)
    (by decide) (by decide) (by decide) (by decide) (by decide) (by decide)).1

/-! ## Preservation infrastructure for the match-requests endpoint -/

theorem setIdx_length (l : List α) (i : Nat) (b : α) : (setIdx l i b).length = l.length := by
  induction l generalizing i with
  | nil => rfl
  | cons x xs ih =>
      cases i with
      | zero => rfl
      | succ n => simp [setIdx, ih]

theorem dbUpdate_pres (Pr : Trip → Prop) (w : List Trip) (rowId : String) (f : Trip → Trip)
    (hf : ∀ t, t ∈ w → t.id = rowId → Pr t → Pr (f t)) (h : ∀ t ∈ w, Pr t) :
    ∀ t' ∈ dbUpdate w rowId f, Pr t' := by
  intro t' ht'
  rcases List.mem_map.mp ht' with ⟨t, htw, heq⟩
  by_cases hid : t.id = rowId
  · rw [if_pos hid] at heq
    exact heq ▸ hf t htw hid (h t htw)
  · rw [if_neg hid] at heq
    exact heq ▸ h t htw

theorem foldl_pres {α : Type} (Pr : Trip → Prop) (step : List Trip → α → List Trip)
    (hstep : ∀ w x, (∀ t ∈ w, Pr t) → ∀ t' ∈ step w x, Pr t') :
    ∀ (l : List α) (w : List Trip), (∀ t ∈ w, Pr t) → ∀ t' ∈ l.foldl step w, Pr t' := by
  intro l
  induction l with
  | nil => intro w h; simpa using h
  | cons x xs ih => intro w h; exact ih _ (hstep w x h)

set_option maxHeartbeats 2000000 in
/-- Every branch of the endpoint only rewrites rows through `setSlot` /
`setStatusOnly` / `clearSlot`; a row property preserved by those is
preserved by the whole call. -/
theorem matchRequestsPost_preserves (Pr : Trip → Prop)
    (hset : ∀ t i e s, Pr t → Pr (setSlot t i e s))
    (hstat : ∀ t i s, Pr t → Pr (setStatusOnly t i s))
    (w : List Trip) (caller action tripId matchedTripId : String)
    (h : ∀ t ∈ w, Pr t) :
    ∀ t' ∈ (matchRequestsPost w caller action tripId matchedTripId).2, Pr t' := by
  have hclear : ∀ t i, Pr t → Pr (clearSlot t i) := fun t i ht => hset t i none none ht
  have hdb : ∀ (w' : List Trip) rowId f, (∀ t, Pr t → Pr (f t)) →
      (∀ t ∈ w', Pr t) → ∀ t' ∈ dbUpdate w' rowId f, Pr t' :=
    fun w' rowId f hf hw => dbUpdate_pres Pr w' rowId f (fun t _ _ => hf t) hw
  have hreq : ∀ (w' : List Trip) trip matchTrip, (∀ t ∈ w', Pr t) →
      ∀ t' ∈ (requestBranch w' trip matchTrip).2, Pr t' := by
    intro w' trip matchTrip hw
    unfold requestBranch
    try simp only []
    split
    · exact hdb _ _ _ (fun t => hset t _ _ _)
        (hdb _ _ _ (fun t => hset t _ _ _) hw)
    · exact hw
  have hwd : ∀ (w' : List Trip) trip matchTrip, (∀ t ∈ w', Pr t) →
      ∀ t' ∈ (withdrawBranch w' trip matchTrip).2, Pr t' := by
    intro w' trip matchTrip hw
    unfold withdrawBranch
    try simp only []
    split
    · split
      · exact hdb _ _ _ (fun t => hclear t _) (hdb _ _ _ (fun t => hclear t _) hw)
      · refine foldl_pres Pr _ ?_ _ _
          (hdb _ _ _ (fun t => hclear t _) (hdb _ _ _ (fun t => hclear t _) hw))
        intro w'' pt hw''
        split
        · split
          · exact hdb _ _ _ (fun t => hclear t _) hw''
          · exact hw''
        · exact hw''
    · exact hw
  have hacc : ∀ (w' : List Trip) trip matchTrip, (∀ t ∈ w', Pr t) →
      ∀ t' ∈ (acceptBranch w' trip matchTrip).2, Pr t' := by
    intro w' trip matchTrip hw
    unfold acceptBranch
    try simp only []
    split
    · exact hw
    · split
      · split
        · exact hdb _ _ _ (fun t => hclear t _) hw
        · split
          · split
            · exact hdb _ _ _ (fun t => hstat t _ _)
                (hdb _ _ _ (fun t => hstat t _ _)
                  (hdb _ _ _ (fun t => hclear t _) hw))
            · exact hdb _ _ _ (fun t => hclear t _) hw
          · exact hdb _ _ _ (fun t => hclear t _) hw
      · split
        · exact hw
        · split
          · exact hdb _ _ _ (fun t => hstat t _ _)
              (hdb _ _ _ (fun t => hstat t _ _) hw)
          · refine foldl_pres Pr _ ?_ _ _
              (hdb _ _ _ (fun t => hstat t _ _)
                (hdb _ _ _ (fun t => hstat t _ _) hw))
            intro w'' pt hw''
            split
            · exact hw''
            · exact hdb _ _ _ (fun t => hset t _ _ _) hw''
  have hden : ∀ (w' : List Trip) trip matchTrip, (∀ t ∈ w', Pr t) →
      ∀ t' ∈ (denyBranch w' trip matchTrip).2, Pr t' := by
    intro w' trip matchTrip hw
    unfold denyBranch
    try simp only []
    split
    · exact hw
    · split
      · split
        · exact hdb _ _ _ (fun t => hclear t _) hw
        · refine foldl_pres Pr _ ?_ _ _ ?_
          · intro w'' pt hw''
            split
            · split
              · exact hdb _ _ _ (fun t => hclear t _) hw''
              · exact hw''
            · exact hw''
          · split
            · split
              · exact hdb _ _ _ (fun t => hclear t _)
                  (hdb _ _ _ (fun t => hclear t _)
                    (hdb _ _ _ (fun t => hclear t _) hw))
              · exact hdb _ _ _ (fun t => hclear t _)
                  (hdb _ _ _ (fun t => hclear t _) hw)
            · split
              · exact hdb _ _ _ (fun t => hclear t _)
                  (hdb _ _ _ (fun t => hclear t _) hw)
              · exact hdb _ _ _ (fun t => hclear t _) hw
      · split
        · exact hw
        · exact hdb _ _ _ (fun t => hclear t _)
            (hdb _ _ _ (fun t => hclear t _) hw)
  have hrem : ∀ (w' : List Trip) trip matchTrip, (∀ t ∈ w', Pr t) →
      ∀ t' ∈ (removeBranch w' trip matchTrip).2, Pr t' := by
    intro w' trip matchTrip hw
    unfold removeBranch
    try simp only []
    split
    · exact hdb _ _ _ (fun t => hclear t _) (hdb _ _ _ (fun t => hclear t _) hw)
    · exact hw
  unfold matchRequestsPost
  try simp only []
  split
  · exact h
  · split
    · exact h
    · split
      · split
        · exact h
        · split
          · exact h
          · split
            · exact h
            · split
              · exact h
              · split
                · exact hreq _ _ _ h
                · split
                  · exact hwd _ _ _ h
                  · split
                    · exact hacc _ _ _ h
                    · split
                      · exact hden _ _ _ h
                      · split
                        · exact hrem _ _ _ h
                        · exact h
      · exact h

/-! ## C3 — capacity (amended) -/

/-- C3 (amended): a trip's occupied-slot count can never exceed 6 — the
ledger has exactly six cells and every operation preserves that shape —
and a request whose target holds no slot for the peer and no empty slot
fails with the capacity error and performs no mutation on any trip; the
accept pool propagation, however, silently skips a full partner (see the
counterexample) instead of failing. -/
theorem capacity_amended
    (t : Trip) (ht6 : t.emails.length = 6)
    (w : List Trip) (trip matchTrip : Trip) (tripId matchedTripId : String)
    (h1 : w.filter (fun x => x.id == tripId || x.id == matchedTripId) = [trip, matchTrip])
    (h2 : trip.id = tripId) (h3 : matchTrip.id = matchedTripId) (h4 : tripId ≠ matchedTripId)
    (h5 : tripId ≠ "") (h6 : matchedTripId ≠ "") (hcall : trip.user_email ≠ "")
    (hnoslot : getSlotForEmail trip matchTrip.user_email = none)
    (hnoempty : getEmptySlot trip = none) :
    occupiedCount t ≤ 6 ∧
    (∀ (w2 : List Trip) (caller action tid mid : String),
      (∀ x ∈ w2, x.emails.length = 6) →
      ∀ x ∈ (matchRequestsPost w2 caller action tid mid).2, x.emails.length = 6) ∧
    matchRequestsPost w trip.user_email "request" tripId matchedTripId =
      (.err 400 "No available match slots", w) := by
  refine ⟨?_, ?_, ?_⟩
  · calc occupiedCount t ≤ t.emails.length := List.length_filter_le _ _
      _ = 6 := ht6
  · intro w2 caller action tid mid hw2
    exact matchRequestsPost_preserves (fun x => x.emails.length = 6)
      (fun x i e s hx => by simp [setSlot, setIdx_length, hx])
      (fun x i s hx => by simpa [setStatusOnly] using hx)
      w2 caller action tid mid hw2
  · rw [matchRequestsPost_run_request w trip matchTrip tripId matchedTripId
      h1 h2 h3 h4 h5 h6 hcall]
    unfold requestBranch
    simp [hnoslot, hnoempty]

/-- A freshly created trip with no slot activity, requested by pia. -/
def tripZoe : Trip :=
  baseTrip "z" "zoe" [none, none, none, none, none, none]
    [none, none, none, none, none, none]

/-- Witness for C3 (amended): pia's trip is full, so her request toward
zoe fails with the capacity error and no row changes. -/
theorem capacity_amended_witness :
    occupiedCount tripPia ≤ 6 ∧
    matchRequestsPost [tripPia, tripZoe] "pia" "request" "p2" "z" =
      (.err 400 "No available match slots", [tripPia, tripZoe]) := by
  have h := capacity_amended tripPia (by decide) [tripPia, tripZoe] tripPia tripZoe
    "p2" "z" (by decide) rfl rfl (by decide) (by decide) (by decide) (by decide)
    (by decide) (by decide)
  exact ⟨h.1, h.2.2⟩

/-! ## C6 — visibility of candidates engaged with third parties -/

theorem mem_insertByKey (key : Trip → Option Int) (x y : Trip) (l : List Trip) :
    y ∈ insertByKey key x l ↔ y = x ∨ y ∈ l := by
  induction l with
  | nil => simp [insertByKey]
  | cons z zs ih =>
      unfold insertByKey
      split
      · simp
      · simp [ih]
        tauto

theorem mem_sortByKey (key : Trip → Option Int) (y : Trip) (l : List Trip) :
    y ∈ sortByKey key l ↔ y ∈ l := by
  induction l with
  | nil => simp [sortByKey]
  | cons z zs ih => simp [sortByKey, mem_insertByKey, ih]

/-- The viewer's trip: no slot activity, default window. -/
def tripVera : Trip :=
  baseTrip "v" "vera" [none, none, none, none, none, none]
    [none, none, none, none, none, none]

/-- A compatible candidate already confirmed with a third party (dan) who
has no trip row in the store; five of carl's six slots are free. -/
def tripCarl : Trip :=
  baseTrip "c" "carl" [some "dan", none, none, none, none, none]
    [some "matched", none, none, none, none, none]

/-- C6 (counterexample): carl passes every per-candidate filter (window,
status, mutual sex consent) and has open capacity, yet the rendered
open-candidate list for vera omits him: his confirmed match with the
absent third party dan removes him via the `paired` filter. -/
theorem open_list_counterexample :
    potentialFilter tripVera (some "Male") [("carl", "Male")]
      (getMatchedPartners tripVera) tripCarl = true ∧
    tripCarl ∈ candidateQuery [tripVera, tripCarl] "vera" tripVera ∧
    tripCarl ∉ openCandidateList [tripVera, tripCarl] "vera" (some "Male")
      [("carl", "Male")] tripVera := by
  refine ⟨rfl, by decide, by decide⟩

/-- C6 (amended): a candidate holding a "matched" slot toward a third
party who does not own any entry of the anchor's potential-candidate list
is dropped from the open-candidate list, unless the anchor's own trip
holds a matched slot for the candidate: the `paired` filter makes
third-party engagement grounds for removal whenever the partner is not
itself a visible potential candidate. -/
theorem open_list_excludes_externally_matched
    (w : List Trip) (viewerEmail : String) (viewerSex : Option String)
    (profiles : List (String × String)) (trip c : Trip) (e : String)
    (hslot : (some e, some "matched") ∈ slotPairs c) (he : e ≠ "")
    (habs : ∀ x ∈ potentialCandidatesOf w viewerEmail viewerSex profiles trip,
      x.user_email ≠ e)
    (hnotconf : (getMatchedPartners trip).contains c.user_email = false) :
    c ∉ openCandidateList w viewerEmail viewerSex profiles trip := by
  intro hc
  unfold openCandidateList at hc
  rcases List.mem_append.mp hc with hconf | hfin
  · rcases List.mem_filter.mp hconf with ⟨-, hcontains⟩
    rw [hnotconf] at hcontains
    exact Bool.false_ne_true hcontains
  · rcases List.mem_filter.mp hfin with ⟨hpaired, -⟩
    rcases List.mem_filter.mp hpaired with ⟨hpot, hok⟩
    have hpred := List.all_eq_true.mp hok _ hslot
    simp only [he, ne_eq, not_false_iff, and_true, if_true, and_self, reduceIte] at hpred
    rcases Option.isSome_iff_exists.mp hpred with ⟨item, hfind⟩
    have hmem : item ∈ potentialCandidatesOf w viewerEmail viewerSex profiles trip :=
      List.mem_of_find?_eq_some hfind
    have heq : (item.user_email == e) = true := by
      have hx := List.find?_some hfind
      simpa using hx
    exact habs item hmem (by simpa using heq)

/-- Witness for C6 (amended) at the concrete rows of the counterexample:
dan owns no entry of vera's potential-candidate list, so carl is
excluded. -/
theorem open_list_excludes_externally_matched_witness :
    tripCarl ∉ openCandidateList [tripVera, tripCarl] "vera" (some "Male")
      [("carl", "Male")] tripVera :=
  open_list_excludes_externally_matched [tripVera, tripCarl] "vera" (some "Male")
    [("carl", "Male")] tripVera tripCarl "dan" (by decide) (by decide)
    (by decide) (by decide)

/-! ## C7 — status propagation to mirrored matched peers -/

theorem contains_iff_mem_str (l : List String) (a : String) :
    l.contains a = true ↔ a ∈ l := by
  constructor <;> intro h <;> simpa using h

theorem foldl_dbUpdate_status (status : String) :
    ∀ (ids : List String) (w : List Trip),
      ids.foldl (fun wacc i => dbUpdate wacc i
        (fun t => { t with trip_status := some status })) w =
      w.map (fun t =>
        if ids.contains t.id then { t with trip_status := some status } else t) := by
  intro ids
  induction ids with
  | nil => intro w; simp
  | cons i ids ih =>
      intro w
      rw [List.foldl_cons, ih]
      unfold dbUpdate
      rw [List.map_map]
      apply List.map_congr_left
      intro t ht
      by_cases h1 : t.id = i <;> by_cases h2 : ids.contains t.id = true <;>
        simp [Function.comp, h1, h2, List.contains_cons]

/-- C7: when the owner sets a matched-category status, the synchronizer
writes that exact status onto the trip itself and onto every row whose
owner appears in one of the trip's "matched" slots and which mirrors a
"matched" slot back toward the trip's owner — and onto no other row
(one-hop propagation). -/
theorem tripStatusSync_propagates
    (w : List Trip) (trip : Trip) (callerEmail tripId status : String)
    (hnd : (w.map Trip.id).Nodup)
    (hfind : w.find? (fun t => t.id == tripId) = some trip)
    (hown : trip.user_email = callerEmail)
    (hmatched : status = "Matched and still looking" ∨ status = "Matched and satisfied")
    (htid : tripId ≠ "") :
    tripStatusSyncPost w callerEmail tripId status =
      (.ok,
        w.map (fun t =>
          if t.id = trip.id ∨
             ((getMatchedPartners trip).contains t.user_email = true ∧
              mirrorsMatched t trip.user_email = true)
          then { t with trip_status := some status } else t)) := by
  have hS : status ≠ "" := by
    rcases hmatched with h | h <;> subst h <;> decide
  have htripw : trip ∈ w := List.mem_of_find?_eq_some hfind
  unfold tripStatusSyncPost
  rw [if_neg (by simp [htid, hS]), hfind]
  simp only []
  rw [if_neg (by simp [hown])]
  rw [foldl_dbUpdate_status]
  refine congrArg (fun l => (ApiResult.ok, l)) ?_
  apply List.map_congr_left
  intro t ht
  have hcond :
      ((trip.id :: (if (getMatchedPartners trip).isEmpty then []
          else (w.filter (fun x =>
            (getMatchedPartners trip).contains x.user_email &&
            mirrorsMatched x trip.user_email)).map (fun x => x.id))).contains t.id = true) ↔
      (t.id = trip.id ∨
        ((getMatchedPartners trip).contains t.user_email = true ∧
         mirrorsMatched t trip.user_email = true)) := by
    rw [List.contains_cons]
    simp only [Bool.or_eq_true, beq_iff_eq]
    constructor
    · rintro (h | h)
      · exact Or.inl h
      · right
        by_cases hemp : (getMatchedPartners trip).isEmpty
        · rw [if_pos hemp] at h
          simp at h
        · rw [if_neg hemp] at h
          rcases List.mem_map.mp ((contains_iff_mem_str _ _).mp h) with ⟨x, hxf, hxid⟩
          have hxw : x ∈ w := (List.mem_filter.mp hxf).1
          have hx : x = t := List.inj_on_of_nodup_map hnd hxw ht hxid
          subst hx
          have := (List.mem_filter.mp hxf).2
          simp only [Bool.and_eq_true] at this
          exact this
    · rintro (h | ⟨hc, hm⟩)
      · exact Or.inl h
      · right
        have hemp : (getMatchedPartners trip).isEmpty = false := by
          have hmem := (contains_iff_mem_str _ _).mp hc
          cases hl : getMatchedPartners trip with
          | nil => rw [hl] at hmem; simp at hmem
          | cons a as => simp [hl]
        rw [if_neg (by simp [hemp])]
        refine (contains_iff_mem_str _ _).mpr ?_
        exact List.mem_map.mpr ⟨t, List.mem_filter.mpr ⟨ht,
          by simp [Bool.and_eq_true, hm, (contains_iff_mem_str _ _).mp hc]⟩, rfl⟩
  by_cases hc : t.id = trip.id ∨
      ((getMatchedPartners trip).contains t.user_email = true ∧
       mirrorsMatched t trip.user_email = true)
  · rw [if_pos (hcond.mpr hc), if_pos hc]
  · rw [if_neg (fun hx => hc (hcond.mp hx)), if_neg hc]

/-- Witness for C7: alice sets "Matched and satisfied" on her trip; the
mirrored matched peer bob receives the same status and nothing else
changes. -/
theorem tripStatusSync_propagates_witness :
    tripStatusSyncPost [tripAlice, tripBob] "alice" "a" "Matched and satisfied" =
      (.ok,
        [{ tripAlice with trip_status := some "Matched and satisfied" },
         { tripBob with trip_status := some "Matched and satisfied" }]) := by
  have h := tripStatusSync_propagates [tripAlice, tripBob] tripAlice "alice" "a"
    "Matched and satisfied" (by decide) rfl rfl (Or.inr rfl) (by decide)
  rw [h]
  decide

/-! ## C8 — notification check: baseline, de-duplication, idempotence -/

/-- Everything one candidate-loop iteration can do: it appends the same
block `ns` of directed pairs to the ledger and to the sent list, each pair
naming the processed candidate, sent only when absent from the ledger, and
the trip→candidate direction only fires past the baseline. -/
theorem processCandidate_spec (trip : Trip) (inew : Bool) (B : Int)
    (st : List (String × String) × List (String × String)) (c : Trip)
    (hcid : c.id ≠ trip.id) :
    ∃ ns,
      processCandidate trip inew B st c = (st.1 ++ ns, st.2 ++ ns) ∧
      (∀ p ∈ ns, p = (trip.id, c.id) ∨ p = (c.id, trip.id)) ∧
      ((trip.id, c.id) ∈ ns → B < c.created_at ∧ (trip.id, c.id) ∉ st.1) ∧
      ((c.id, trip.id) ∈ ns → (c.id, trip.id) ∉ st.1) ∧
      (B < c.created_at → (trip.id, c.id) ∉ st.1 →
        ns.count (trip.id, c.id) = 1) ∧
      ns.count (trip.id, c.id) ≤ 1 := by
  have hne : ((c.id, trip.id) : String × String) ≠ (trip.id, c.id) := by
    intro hx
    exact hcid (congrArg Prod.fst hx)
  have hbe : (((c.id, trip.id) : String × String) == (trip.id, c.id)) = false := by
    simp [hne]
  have hbe2 : (((trip.id, c.id) : String × String) == (c.id, trip.id)) = false := by
    simp [Ne.symm hne]
  unfold processCandidate
  simp only []
  by_cases h1 : B < c.created_at ∧ (trip.id, c.id) ∉ st.1
  · rw [if_pos h1]
    by_cases h2 : inew = false ∧ c.baseline_match_check_at.getD c.created_at < trip.created_at ∧
        (c.id, trip.id) ∉ st.1 ++ [(trip.id, c.id)]
    · rw [if_pos h2]
      rw [if_neg (by
        rintro ⟨hinew, -, -⟩
        rw [h2.1] at hinew
        exact Bool.false_ne_true hinew)]
      refine ⟨[(trip.id, c.id), (c.id, trip.id)], by simp, ?_, ?_, ?_, ?_, ?_⟩
      · intro p hp
        simp only [List.mem_cons, List.not_mem_nil, or_false] at hp
        exact hp
      · intro _
        exact ⟨h1.1, h1.2⟩
      · intro _ hin
        exact h2.2.2 (List.mem_append_left _ hin)
      · intro _ _
        simp [List.count_cons, hbe2, hcid, Ne.symm hcid]
      · simp [List.count_cons, hbe2, hcid, Ne.symm hcid]
    · rw [if_neg h2]
      by_cases h3 : inew = true ∧ c.baseline_match_check_at.getD c.created_at < trip.created_at ∧
          (c.id, trip.id) ∉ st.1 ++ [(trip.id, c.id)]
      · rw [if_pos h3]
        refine ⟨[(trip.id, c.id), (c.id, trip.id)], by simp, ?_, ?_, ?_, ?_, ?_⟩
        · intro p hp
          simp only [List.mem_cons, List.not_mem_nil, or_false] at hp
          exact hp
        · intro _
          exact ⟨h1.1, h1.2⟩
        · intro _ hin
          exact h3.2.2 (List.mem_append_left _ hin)
        · intro _ _
          simp [List.count_cons, hbe2, hcid, Ne.symm hcid]
        · simp [List.count_cons, hbe2, hcid, Ne.symm hcid]
      · rw [if_neg h3]
        refine ⟨[(trip.id, c.id)], by simp, ?_, ?_, ?_, ?_, ?_⟩
        · intro p hp
          simp only [List.mem_singleton] at hp
          exact Or.inl hp
        · intro _
          exact ⟨h1.1, h1.2⟩
        · intro hmem
          simp only [List.mem_singleton] at hmem
          exact absurd hmem hne
        · intro _ _
          simp
        · simp
  · rw [if_neg h1]
    by_cases h2 : inew = false ∧ c.baseline_match_check_at.getD c.created_at < trip.created_at ∧
        (c.id, trip.id) ∉ st.1
    · rw [if_pos h2]
      rw [if_neg (by
        rintro ⟨hinew, -, -⟩
        rw [h2.1] at hinew
        exact Bool.false_ne_true hinew)]
      refine ⟨[(c.id, trip.id)], by simp, ?_, ?_, ?_, ?_, ?_⟩
      · intro p hp
        simp only [List.mem_singleton] at hp
        exact Or.inr hp
      · intro hmem
        simp only [List.mem_singleton] at hmem
        exact absurd hmem.symm hne
      · intro _
        exact h2.2.2
      · intro hB hnotin
        exact absurd ⟨hB, hnotin⟩ h1
      · simp [List.count_cons, hbe, hcid, Ne.symm hcid]
    · rw [if_neg h2]
      by_cases h3 : inew = true ∧ c.baseline_match_check_at.getD c.created_at < trip.created_at ∧
          (c.id, trip.id) ∉ st.1
      · rw [if_pos h3]
        refine ⟨[(c.id, trip.id)], by simp, ?_, ?_, ?_, ?_, ?_⟩
        · intro p hp
          simp only [List.mem_singleton] at hp
          exact Or.inr hp
        · intro hmem
          simp only [List.mem_singleton] at hmem
          exact absurd hmem.symm hne
        · intro _
          exact h3.2.2
        · intro hB hnotin
          exact absurd ⟨hB, hnotin⟩ h1
        · simp [List.count_cons, hbe, hcid, Ne.symm hcid]
      · rw [if_neg h3]
        refine ⟨[], by simp, ?_, ?_, ?_, ?_, ?_⟩
        · intro p hp
          exact absurd hp (List.not_mem_nil p)
        · intro hmem
          exact absurd hmem (List.not_mem_nil _)
        · intro hmem
          exact absurd hmem (List.not_mem_nil _)
        · intro hB hnotin
          exact absurd ⟨hB, hnotin⟩ h1
        · simp

theorem foldl_process_ledger_mono (trip : Trip) (inew : Bool) (B : Int) :
    ∀ (cs : List Trip) st p, (∀ x ∈ cs, x.id ≠ trip.id) → p ∈ st.1 →
      p ∈ (cs.foldl (processCandidate trip inew B) st).1 := by
  intro cs
  induction cs with
  | nil => intro st p _ hp; simpa using hp
  | cons c cs ih =>
      intro st p hids hp
      rw [List.foldl_cons]
      rcases processCandidate_spec trip inew B st c (hids c (by simp)) with ⟨ns, heq, -⟩
      refine ih _ p (fun x hx => hids x (List.mem_cons_of_mem _ hx)) ?_
      rw [heq]
      exact List.mem_append_left _ hp

theorem foldl_process_sent_from (trip : Trip) (inew : Bool) (B : Int) :
    ∀ (cs : List Trip) st p, (∀ x ∈ cs, x.id ≠ trip.id) →
      p ∈ (cs.foldl (processCandidate trip inew B) st).2 →
      p ∈ st.2 ∨ ∃ c ∈ cs, (p = (trip.id, c.id) ∧ B < c.created_at) ∨
        p = (c.id, trip.id) := by
  intro cs
  induction cs with
  | nil => intro st p _ hp; exact Or.inl (by simpa using hp)
  | cons c cs ih =>
      intro st p hids hp
      rw [List.foldl_cons] at hp
      rcases processCandidate_spec trip inew B st c (hids c (by simp)) with
        ⟨ns, heq, hmem, hd1, -, -, -⟩
      rcases ih _ p (fun x hx => hids x (List.mem_cons_of_mem _ hx)) hp with h | ⟨c', hc', h⟩
      · rw [heq] at h
        rcases List.mem_append.mp h with h | h
        · exact Or.inl h
        · rcases hmem p h with h' | h'
          · exact Or.inr ⟨c, by simp, Or.inl ⟨h', (hd1 (h' ▸ h)).1⟩⟩
          · exact Or.inr ⟨c, by simp, Or.inr h'⟩
      · exact Or.inr ⟨c', List.mem_cons_of_mem _ hc', h⟩

theorem foldl_process_no_resend (trip : Trip) (inew : Bool) (B : Int) :
    ∀ (cs : List Trip) st p, (∀ x ∈ cs, x.id ≠ trip.id) → p ∈ st.1 →
      p ∈ (cs.foldl (processCandidate trip inew B) st).2 → p ∈ st.2 := by
  intro cs
  induction cs with
  | nil => intro st p _ _ hp; simpa using hp
  | cons c cs ih =>
      intro st p hids hp1 hp2
      rw [List.foldl_cons] at hp2
      rcases processCandidate_spec trip inew B st c (hids c (by simp)) with
        ⟨ns, heq, hmem, hd1, hd2, -, -⟩
      have hp1' : p ∈ (processCandidate trip inew B st c).1 := by
        rw [heq]
        exact List.mem_append_left _ hp1
      have hres := ih _ p (fun x hx => hids x (List.mem_cons_of_mem _ hx)) hp1' hp2
      rw [heq] at hres
      rcases List.mem_append.mp hres with h | h
      · exact h
      · rcases hmem p h with h' | h'
        · subst h'
          exact absurd hp1 (hd1 h).2
        · subst h'
          exact absurd hp1 (hd2 h)

theorem foldl_process_count_stable (trip : Trip) (inew : Bool) (B : Int)
    (q : String × String) :
    ∀ (cs : List Trip) st, (∀ x ∈ cs, x.id ≠ trip.id) → q ∈ st.1 →
      ((cs.foldl (processCandidate trip inew B) st).1.count q = st.1.count q ∧
       (cs.foldl (processCandidate trip inew B) st).2.count q = st.2.count q) := by
  intro cs
  induction cs with
  | nil => intro st _ _; exact ⟨rfl, rfl⟩
  | cons c cs ih =>
      intro st hids hq
      rw [List.foldl_cons]
      rcases processCandidate_spec trip inew B st c (hids c (by simp)) with
        ⟨ns, heq, hmem, hd1, hd2, -, -⟩
      have hqns : q ∉ ns := by
        intro hin
        rcases hmem q hin with h' | h'
        · subst h'
          exact (hd1 hin).2 hq
        · subst h'
          exact hd2 hin hq
      rw [heq]
      have hq2 : q ∈ (st.1 ++ ns, st.2 ++ ns).1 := List.mem_append_left _ hq
      have hres := ih (st.1 ++ ns, st.2 ++ ns)
        (fun x hx => hids x (List.mem_cons_of_mem _ hx)) hq2
      rw [hres.1, hres.2]
      simp [List.count_append, List.count_eq_zero.mpr hqns]

theorem foldl_process_pair_absent (trip : Trip) (inew : Bool) (B : Int) (cid : String) :
    ∀ (cs : List Trip) st, (∀ x ∈ cs, x.id ≠ trip.id) → (∀ x ∈ cs, x.id ≠ cid) →
      ((cs.foldl (processCandidate trip inew B) st).1.count (trip.id, cid) =
        st.1.count (trip.id, cid) ∧
       (cs.foldl (processCandidate trip inew B) st).2.count (trip.id, cid) =
        st.2.count (trip.id, cid)) := by
  intro cs
  induction cs with
  | nil => intro st _ _; exact ⟨rfl, rfl⟩
  | cons x cs ih =>
      intro st hids hcs
      rw [List.foldl_cons]
      rcases processCandidate_spec trip inew B st x (hids x (by simp)) with
        ⟨ns, heq, hmem, -, -, -, -⟩
      have hpns : (trip.id, cid) ∉ ns := by
        intro hin
        rcases hmem _ hin with h' | h'
        · exact hcs x (by simp) (congrArg Prod.snd h').symm
        · exact hids x (by simp) (congrArg Prod.fst h').symm
      rw [heq]
      have hres := ih (st.1 ++ ns, st.2 ++ ns)
        (fun y hy => hids y (List.mem_cons_of_mem _ hy))
        (fun y hy => hcs y (List.mem_cons_of_mem _ hy))
      rw [hres.1, hres.2]
      simp [List.count_append, List.count_eq_zero.mpr hpns]

theorem foldl_process_pair_once (trip : Trip) (inew : Bool) (B : Int) (c : Trip) :
    ∀ (cs : List Trip) st, (∀ x ∈ cs, x.id ≠ trip.id) → (cs.map Trip.id).Nodup →
      c ∈ cs → B < c.created_at → (trip.id, c.id) ∉ st.1 →
      st.2.count (trip.id, c.id) = 0 →
      ((cs.foldl (processCandidate trip inew B) st).2.count (trip.id, c.id) = 1 ∧
       (cs.foldl (processCandidate trip inew B) st).1.count (trip.id, c.id) =
         st.1.count (trip.id, c.id) + 1) := by
  intro cs
  induction cs with
  | nil => intro st _ _ hc; exact absurd hc (List.not_mem_nil c)
  | cons x cs ih =>
      intro st hids hnd hc hB habs hcnt
      rw [List.foldl_cons]
      rcases processCandidate_spec trip inew B st x (hids x (by simp)) with
        ⟨ns, heq, hmem, hd1, hd2, hfire, hle⟩
      by_cases hxc : x = c
      · subst hxc
        have h1 : ns.count (trip.id, x.id) = 1 := hfire hB habs
        have hin : (trip.id, x.id) ∈ (processCandidate trip inew B st x).1 := by
          rw [heq]
          refine List.mem_append_right _ ?_
          exact List.count_pos_iff.mp (by omega)
        have hstable := foldl_process_count_stable trip inew B (trip.id, x.id) cs _
          (fun y hy => hids y (List.mem_cons_of_mem _ hy)) hin
        constructor
        · rw [hstable.2, heq]
          simp [List.count_append, hcnt, h1]
        · rw [hstable.1, heq]
          simp [List.count_append, h1, List.count_eq_zero.mpr habs]
      · have hccs : c ∈ cs := by
          rcases List.mem_cons.mp hc with h | h
          · exact absurd h.symm hxc
          · exact h
        have hxid : x.id ≠ c.id := by
          intro hxe
          have hmapc : x.id ∈ cs.map Trip.id := by
            rw [hxe]
            exact List.mem_map_of_mem _ hccs
          exact (List.nodup_cons.mp hnd).1 hmapc
        have hpns : (trip.id, c.id) ∉ ns := by
          intro hin
          rcases hmem _ hin with h' | h'
          · exact hxid (congrArg Prod.snd h').symm
          · exact hids x (by simp) (congrArg Prod.fst h').symm
        rw [heq]
        have habs2 : (trip.id, c.id) ∉ (st.1 ++ ns, st.2 ++ ns).1 := by
          intro hin
          rcases List.mem_append.mp hin with h' | h'
          · exact habs h'
          · exact hpns h'
        have hcnt2 : (st.1 ++ ns, st.2 ++ ns).2.count (trip.id, c.id) = 0 := by
          simp [List.count_append, hcnt, List.count_eq_zero.mpr hpns]
        have hres := ih (st.1 ++ ns, st.2 ++ ns)
          (fun y hy => hids y (List.mem_cons_of_mem _ hy))
          (List.nodup_cons.mp hnd).2 hccs hB habs2 hcnt2
        refine ⟨hres.1, ?_⟩
        rw [hres.2]
        simp [List.count_append, List.count_eq_zero.mpr hpns]

/-- C8: for a notification check of trip X with established baseline B:
no compatible candidate created before B ever produces a notification to
X's owner; a compatible candidate created after B with no (X, candidate)
ledger record produces exactly one notification and exactly one new
ledger record for that directed pair; an immediate re-run produces no
further notification for that pair; and the baseline is never
overwritten. -/
theorem matchNotifications_check
    (w : List Trip) (trip : Trip) (ledger : List (String × String))
    (tripId : String) (now : Int) (B : Int)
    (hnd : (w.map Trip.id).Nodup)
    (hfind : w.find? (fun t => t.id == tripId) = some trip)
    (hB : trip.baseline_match_check_at = some B) :
    ∀ sent ledger2 b2,
      matchNotificationsPost w ledger tripId now = some (sent, ledger2, b2) →
      b2 = some B ∧
      (∀ c' ∈ w, c'.created_at < B → (trip.id, c'.id) ∉ sent) ∧
      (∀ c ∈ w,
        c.direction = trip.direction → c.flight_date = trip.flight_date →
        c.id ≠ trip.id → c.user_email ≠ trip.user_email →
        notifCompatibleFilter trip c = true → B < c.created_at →
        (trip.id, c.id) ∉ ledger →
        sent.count (trip.id, c.id) = 1 ∧
        ledger2.count (trip.id, c.id) = ledger.count (trip.id, c.id) + 1 ∧
        (∀ (now2 : Int) sent2 l3 b3,
          matchNotificationsPost w ledger2 tripId now2 = some (sent2, l3, b3) →
          (trip.id, c.id) ∉ sent2)) := by
  intro sent ledger2 b2 heq
  unfold matchNotificationsPost at heq
  rw [hfind] at heq
  simp only [hB, Option.getD_some, Option.isNone_some, Option.some.injEq,
    Prod.mk.injEq] at heq
  obtain ⟨h1, h2, h3⟩ := heq
  subst h1
  subst h2
  have hTids : ∀ x ∈ (w.filter (fun t =>
      t.direction == trip.direction && t.flight_date == trip.flight_date &&
      t.id != trip.id && t.user_email != trip.user_email)).filter
        (notifCompatibleFilter trip), x.id ≠ trip.id := by
    intro x hx
    have hq := (List.mem_filter.mp (List.mem_filter.mp hx).1).2
    simp only [Bool.and_eq_true, bne_iff_ne, ne_eq] at hq
    exact hq.1.2
  have hndc : (((w.filter (fun t =>
      t.direction == trip.direction && t.flight_date == trip.flight_date &&
      t.id != trip.id && t.user_email != trip.user_email)).filter
        (notifCompatibleFilter trip)).map Trip.id).Nodup := by
    refine List.Nodup.sublist ?_ hnd
    exact List.Sublist.map _ ((List.filter_sublist _).trans (List.filter_sublist _))
  refine ⟨h3.symm, ?_, ?_⟩
  · intro c' hc'w hlt hin
    rcases foldl_process_sent_from trip false B _ _ _ hTids hin with h | ⟨c, hc, h⟩
    · exact absurd h (List.not_mem_nil _)
    · rcases h with ⟨hpe, hbc⟩ | hpe
      · have hcid : c.id = c'.id := (congrArg Prod.snd hpe).symm
        have hcw : c ∈ w :=
          (List.mem_filter.mp (List.mem_filter.mp hc).1).1
        have hcc : c = c' := List.inj_on_of_nodup_map hnd hcw hc'w hcid
        rw [hcc] at hbc
        omega
      · exact hTids c hc (congrArg Prod.fst hpe).symm
  · intro c hcw hdir hdate hcid hcem hcompat hnew habs
    have hcq : c ∈ w.filter (fun t =>
        t.direction == trip.direction && t.flight_date == trip.flight_date &&
        t.id != trip.id && t.user_email != trip.user_email) := by
      refine List.mem_filter.mpr ⟨hcw, ?_⟩
      simp [hdir, hdate, hcid, hcem]
    have hccpt : c ∈ (w.filter (fun t =>
        t.direction == trip.direction && t.flight_date == trip.flight_date &&
        t.id != trip.id && t.user_email != trip.user_email)).filter
          (notifCompatibleFilter trip) :=
      List.mem_filter.mpr ⟨hcq, hcompat⟩
    have honce := foldl_process_pair_once trip false B c _ (ledger, []) hTids hndc
      hccpt hnew habs rfl
    refine ⟨honce.1, by simpa using honce.2, ?_⟩
    intro now2 sent2 l3 b3 heq2
    unfold matchNotificationsPost at heq2
    rw [hfind] at heq2
    simp only [hB, Option.getD_some, Option.isNone_some, Option.some.injEq,
      Prod.mk.injEq] at heq2
    obtain ⟨g1, g2, g3⟩ := heq2
    subst g1
    intro hin2
    have hinledger2 : (trip.id, c.id) ∈
        (((List.foldl (processCandidate trip false B) (ledger, [])
          ((w.filter (fun t =>
            t.direction == trip.direction && t.flight_date == trip.flight_date &&
            t.id != trip.id && t.user_email != trip.user_email)).filter
              (notifCompatibleFilter trip))).1,
          ([] : List (String × String))) :
            List (String × String) × List (String × String)).1 := by
      refine List.count_pos_iff.mp ?_
      rw [honce.2]
      omega
    have := foldl_process_no_resend trip false B _ _ _ hTids hinledger2 hin2
    exact absurd this (List.not_mem_nil _)

/-- A trip with an established notification baseline of 100. -/
def tripXena : Trip :=
  { baseTrip "x1" "xena" [none, none, none, none, none, none]
      [none, none, none, none, none, none] with
    baseline_match_check_at := some 100 }

/-- A compatible candidate created at 200, after xena's baseline. -/
def tripCora : Trip :=
  { baseTrip "c1" "cora" [none, none, none, none, none, none]
      [none, none, none, none, none, none] with
    created_at := 200 }

/-- Witness for C8: checking xena's trip notifies about cora exactly once,
writes one ledger row, and keeps the baseline at 100. -/
theorem matchNotifications_check_witness :
    matchNotificationsPost [tripXena, tripCora] [] "x1" 999 =
      some ([("x1", "c1")], [("x1", "c1")], some 100) ∧
    [(("x1" : String), ("c1" : String))].count ("x1", "c1") = 1 := by
  have heq : matchNotificationsPost [tripXena, tripCora] [] "x1" 999 =
      some ([("x1", "c1")], [("x1", "c1")], some 100) := rfl
  have h := matchNotifications_check [tripXena, tripCora] tripXena [] "x1" 999 100
    (by decide) rfl rfl _ _ _ heq
  have hb := (h.2.2 tripCora (by simp) rfl rfl (by decide) (by decide) rfl
    (by decide) (by simp)).1
  exact ⟨heq, hb⟩

/-- Witness for C9 at a concrete input: bob (who does not own alice's
trip) calling accept on it is rejected with a 403 and no state change,
while bob removing the alice-bob match is authorized and succeeds. -/
theorem matchRequests_authorization_witness :
    matchRequestsPost [tripAlice, tripBob] "bob" "accept" "a" "b" =
      (.err 403 "Not authorized", [tripAlice, tripBob]) := by
  have h := (matchRequests_authorization [tripAlice, tripBob] tripAlice tripBob
    "a" "b" "bob" "accept" (by decide) (by decide) (by decide) (by decide)
    (by decide) (by decide) (by decide)).1 (by simp) (by decide)
  exact h

/-! ## C10 — each peer referenced by at most one slot -/

/-- A trip references each peer email in at most one of its six slots. -/
def noDupEmails (t : Trip) : Prop := (t.emails.filterMap id).Nodup

theorem mem_filterMap_id (l : List (Option String)) (a : String) :
    a ∈ l.filterMap id ↔ some a ∈ l := by
  simp [List.mem_filterMap]

theorem filterMap_setIdx_none_sublist (l : List (Option String)) :
    ∀ i, ((setIdx l i none).filterMap id).Sublist (l.filterMap id) := by
  induction l with
  | nil => intro i; simp [setIdx]
  | cons x xs ih =>
      intro i
      cases i with
      | zero =>
          cases x with
          | none => simp [setIdx, List.filterMap_cons]
          | some a =>
              simp only [setIdx, List.filterMap_cons]
              exact List.sublist_cons_of_sublist a (List.Sublist.refl _)
      | succ n =>
          cases x with
          | none => simpa [setIdx, List.filterMap_cons] using ih n
          | some a =>
              simp only [setIdx, List.filterMap_cons]
              exact List.Sublist.cons₂ a (ih n)

theorem noDup_clearSlot (t : Trip) (i : Nat) (h : noDupEmails t) :
    noDupEmails (clearSlot t i) :=
  List.Nodup.sublist (filterMap_setIdx_none_sublist t.emails i) h

theorem noDup_setStatusOnly (t : Trip) (i : Nat) (s : Option String)
    (h : noDupEmails t) : noDupEmails (setStatusOnly t i s) := h

theorem findSlotIdx_get (e : String) :
    ∀ (l : List (Option String)) i, findSlotIdx e l = some i → l.get? i = some (some e) := by
  intro l
  induction l with
  | nil => intro i h; cases h
  | cons x xs ih =>
      intro i h
      unfold findSlotIdx at h
      by_cases hx : x = some e
      · rw [if_pos hx] at h
        cases h
        simpa using hx
      · rw [if_neg hx] at h
        rcases Option.map_eq_some'.mp h with ⟨j, hj, hji⟩
        subst hji
        simpa using ih j hj

theorem findSlotIdx_none (e : String) :
    ∀ (l : List (Option String)), findSlotIdx e l = none → some e ∉ l := by
  intro l
  induction l with
  | nil => intro _ h; simp at h
  | cons x xs ih =>
      intro h
      unfold findSlotIdx at h
      by_cases hx : x = some e
      · rw [if_pos hx] at h
        cases h
      · rw [if_neg hx] at h
        have hxs := ih (by
          rcases hfs : findSlotIdx e xs with _ | j
          · rfl
          · rw [hfs] at h
            simp at h)
        intro hmem
        rcases List.mem_cons.mp hmem with hmem | hmem
        · exact hx hmem.symm
        · exact hxs hmem

theorem findEmptyIdx_get :
    ∀ (l : List (Option String)) i, findEmptyIdx l = some i → l.get? i = some none := by
  intro l
  induction l with
  | nil => intro i h; cases h
  | cons x xs ih =>
      intro i h
      unfold findEmptyIdx at h
      by_cases hx : x = none
      · rw [if_pos hx] at h
        cases h
        simpa using hx
      · rw [if_neg hx] at h
        rcases Option.map_eq_some'.mp h with ⟨j, hj, hji⟩
        subst hji
        simpa using ih j hj

theorem setIdx_get_same : ∀ (l : List (Option String)) i v,
    l.get? i = some v → setIdx l i v = l := by
  intro l
  induction l with
  | nil => intro i v h; cases h
  | cons x xs ih =>
      intro i v h
      cases i with
      | zero =>
          simp only [List.get?] at h
          cases h
          rfl
      | succ n =>
          simp only [List.get?] at h
          simp [setIdx, ih n v h]

theorem mem_setIdx {α : Type} : ∀ (l : List α) (i : Nat) (v x : α),
    x ∈ setIdx l i v → x = v ∨ x ∈ l := by
  intro l
  induction l with
  | nil => intro i v x h; simp [setIdx] at h
  | cons y ys ih =>
      intro i v x h
      cases i with
      | zero =>
          rcases List.mem_cons.mp h with h | h
          · exact Or.inl h
          · exact Or.inr (List.mem_cons_of_mem _ h)
      | succ n =>
          rcases List.mem_cons.mp h with h | h
          · exact Or.inr (by simp [h])
          · rcases ih n v x h with h' | h'
            · exact Or.inl h'
            · exact Or.inr (List.mem_cons_of_mem _ h')

theorem mem_filterMap_setIdx (l : List (Option String)) (i : Nat) (v : Option String)
    (a : String) (h : a ∈ (setIdx l i v).filterMap id) :
    v = some a ∨ a ∈ l.filterMap id := by
  rcases mem_setIdx l i v (some a) ((mem_filterMap_id _ _).mp h) with h' | h'
  · exact Or.inl h'.symm
  · exact Or.inr ((mem_filterMap_id _ _).mpr h')

theorem nodup_insert_fresh : ∀ (l : List (Option String)) i (e : String),
    l.get? i = some none → some e ∉ l → (l.filterMap id).Nodup →
    ((setIdx l i (some e)).filterMap id).Nodup := by
  intro l
  induction l with
  | nil => intro i e h; cases h
  | cons x xs ih =>
      intro i e hget hnot hnd
      cases i with
      | zero =>
          simp only [List.get?] at hget
          cases hget
          simp only [setIdx, List.filterMap_cons, id]
          refine List.nodup_cons.mpr ⟨?_, ?_⟩
          · intro hmem
            exact hnot (List.mem_cons_of_mem _ ((mem_filterMap_id xs e).mp hmem))
          · simpa [List.filterMap_cons] using hnd
      | succ n =>
          simp only [List.get?] at hget
          have hnot' : some e ∉ xs := fun hm => hnot (List.mem_cons_of_mem _ hm)
          cases x with
          | none =>
              simp only [setIdx, List.filterMap_cons]
              exact ih n e hget hnot' (by simpa [List.filterMap_cons] using hnd)
          | some b =>
              simp only [setIdx, List.filterMap_cons, id]
              simp only [List.filterMap_cons, id] at hnd
              have hnd' := List.nodup_cons.mp hnd
              refine List.nodup_cons.mpr ⟨?_, ih n e hget hnot' hnd'.2⟩
              intro hmem
              rcases mem_filterMap_setIdx xs n (some e) b hmem with h' | h'
              · have : e = b := by injection h'
                subst this
                exact hnot (by simp)
              · exact hnd'.1 h'

/-- Writing email `e` into the reuse-or-first-empty slot of the very trip
the index was computed from preserves the invariant. -/
theorem noDup_place (t : Trip) (e : String) (s : Option String) (k : Nat)
    (hk : (match getSlotForEmail t e with
           | none => getEmptySlot t
           | some i => some i) = some k)
    (h : noDupEmails t) : noDupEmails (setSlot t k (some e) s) := by
  rcases hfs : getSlotForEmail t e with _ | i
  · rw [hfs] at hk
    have hget := findEmptyIdx_get t.emails k hk
    have hnot := findSlotIdx_none e t.emails hfs
    exact nodup_insert_fresh t.emails k e hget hnot h
  · rw [hfs] at hk
    have hik : i = k := by injection hk
    subst hik
    have hget := findSlotIdx_get e t.emails i hfs
    unfold noDupEmails at h ⊢
    unfold setSlot
    simpa [setIdx_get_same t.emails i (some e) hget] using h

theorem dbUpdate_map_id (w : List Trip) (rowId : String) (f : Trip → Trip)
    (hid : ∀ t, (f t).id = t.id) :
    (dbUpdate w rowId f).map Trip.id = w.map Trip.id := by
  unfold dbUpdate
  rw [List.map_map]
  apply List.map_congr_left
  intro t _
  by_cases h : t.id = rowId <;> simp [Function.comp, h, hid]

theorem row_unique (w : List Trip) (hnd : (w.map Trip.id).Nodup)
    {s t : Trip} (hs : s ∈ w) (ht : t ∈ w) (h : s.id = t.id) : s = t :=
  List.inj_on_of_nodup_map hnd hs ht h

/-- The accept pool-propagation loop preserves the invariant: every write
reuses the partner's own slot for the joiner or its first empty slot, and
under unique row ids the updated row is the very partner the index was
computed from. -/
theorem foldl_propagation_noDup (e : String) (s : Option String) :
    ∀ (pts : List Trip) (wacc : List Trip),
      (∀ t ∈ wacc, noDupEmails t) →
      ((wacc.map Trip.id).Nodup) →
      ((pts.map Trip.id).Nodup) →
      (∀ pt ∈ pts, ∀ x ∈ wacc, x.id = pt.id → x = pt) →
      ∀ t' ∈ pts.foldl (fun wa pt =>
          match (match getSlotForEmail pt e with
                 | none => getEmptySlot pt
                 | some k => some k) with
          | none => wa
          | some k => dbUpdate wa pt.id (fun t => setSlot t k (some e) s)) wacc,
        noDupEmails t' := by
  intro pts
  induction pts with
  | nil => intro wacc h _ _ _; simpa using h
  | cons pt pts ih =>
      intro wacc h hnd hpnd hrow
      rw [List.foldl_cons]
      rcases hes : (match getSlotForEmail pt e with
          | none => getEmptySlot pt
          | some k => some k) with _ | k
      · simp only [hes]
        exact ih wacc h hnd (List.nodup_cons.mp hpnd).2
          (fun pt' hpt' => hrow pt' (List.mem_cons_of_mem _ hpt'))
      · simp only [hes]
        refine ih _ ?_ ?_ (List.nodup_cons.mp hpnd).2 ?_
        · refine dbUpdate_pres _ _ _ _ ?_ h
          intro x hx hxid hxnd
          have hxp : x = pt := hrow pt (by simp) x hx hxid
          subst hxp
          exact noDup_place x e s k hes hxnd
        · rw [dbUpdate_map_id wacc pt.id (fun t => setSlot t k (some e) s)
            (fun t => rfl)]
          exact hnd
        · intro pt' hpt' x hx hxid
          rcases List.mem_map.mp hx with ⟨x0, hx0, heq0⟩
          by_cases hcase : x0.id = pt.id
          · rw [if_pos hcase] at heq0
            exfalso
            have hxi : x.id = pt.id := by
              rw [← heq0]
              simpa [setSlot] using hcase
            have hpp : pt'.id = pt.id := by rw [← hxid, hxi]
            have hmem : pt.id ∈ pts.map Trip.id := by
              rw [← hpp]
              exact List.mem_map_of_mem _ hpt'
            exact (List.nodup_cons.mp hpnd).1 hmem
          · rw [if_neg hcase] at heq0
            subst heq0
            exact hrow pt' (List.mem_cons_of_mem _ hpt') x0 hx0 hxid

theorem requestBranch_noDup (w : List Trip) (trip matchTrip : Trip)
    (hnd : (w.map Trip.id).Nodup) (h : ∀ t ∈ w, noDupEmails t)
    (htw : trip ∈ w) (hmw : matchTrip ∈ w) (hneid : trip.id ≠ matchTrip.id) :
    ∀ t' ∈ (requestBranch w trip matchTrip).2, noDupEmails t' := by
  unfold requestBranch
  try simp only []
  split
  · rename_i a b heq1 heq2
    refine dbUpdate_pres _ _ _ _ ?_ (dbUpdate_pres _ _ _ _ ?_ h)
    · intro x hx hxid hxnd
      rcases List.mem_map.mp hx with ⟨x0, hx0, heq0⟩
      by_cases hcase : x0.id = trip.id
      · rw [if_pos hcase] at heq0
        exfalso
        have hxi : x.id = trip.id := by
          rw [← heq0]
          simpa [setSlot] using hcase
        exact hneid (hxi.symm.trans hxid)
      · rw [if_neg hcase] at heq0
        subst heq0
        have hxm : x0 = matchTrip := row_unique w hnd hx0 hmw hxid
        subst hxm
        exact noDup_place x0 trip.user_email (some "request_received") b heq2 hxnd
    · intro x hx hxid hxnd
      have hxt : x = trip := row_unique w hnd hx htw hxid
      subst hxt
      exact noDup_place x matchTrip.user_email (some "request_sent") a heq1 hxnd
  · exact h

theorem withdrawBranch_noDup (w : List Trip) (trip matchTrip : Trip)
    (h : ∀ t ∈ w, noDupEmails t) :
    ∀ t' ∈ (withdrawBranch w trip matchTrip).2, noDupEmails t' := by
  unfold withdrawBranch
  try simp only []
  split
  · split
    · exact dbUpdate_pres _ _ _ _ (fun t _ _ ht => noDup_clearSlot t _ ht)
        (dbUpdate_pres _ _ _ _ (fun t _ _ ht => noDup_clearSlot t _ ht) h)
    · refine foldl_pres noDupEmails _ ?_ _ _
        (dbUpdate_pres _ _ _ _ (fun t _ _ ht => noDup_clearSlot t _ ht)
          (dbUpdate_pres _ _ _ _ (fun t _ _ ht => noDup_clearSlot t _ ht) h))
      intro w'' pt hw''
      split
      · split
        · exact dbUpdate_pres _ _ _ _ (fun t _ _ ht => noDup_clearSlot t _ ht) hw''
        · exact hw''
      · exact hw''
  · exact h

theorem removeBranch_noDup (w : List Trip) (trip matchTrip : Trip)
    (h : ∀ t ∈ w, noDupEmails t) :
    ∀ t' ∈ (removeBranch w trip matchTrip).2, noDupEmails t' := by
  unfold removeBranch
  try simp only []
  split
  · exact dbUpdate_pres _ _ _ _ (fun t _ _ ht => noDup_clearSlot t _ ht)
      (dbUpdate_pres _ _ _ _ (fun t _ _ ht => noDup_clearSlot t _ ht) h)
  · exact h

theorem denyBranch_noDup (w : List Trip) (trip matchTrip : Trip)
    (h : ∀ t ∈ w, noDupEmails t) :
    ∀ t' ∈ (denyBranch w trip matchTrip).2, noDupEmails t' := by
  unfold denyBranch
  try simp only []
  split
  · exact h
  · split
    · split
      · exact dbUpdate_pres _ _ _ _ (fun t _ _ ht => noDup_clearSlot t _ ht) h
      · refine foldl_pres noDupEmails _ ?_ _ _ ?_
        · intro w'' pt hw''
          split
          · split
            · exact dbUpdate_pres _ _ _ _ (fun t _ _ ht => noDup_clearSlot t _ ht) hw''
            · exact hw''
          · exact hw''
        · split
          · split
            · exact dbUpdate_pres _ _ _ _ (fun t _ _ ht => noDup_clearSlot t _ ht)
                (dbUpdate_pres _ _ _ _ (fun t _ _ ht => noDup_clearSlot t _ ht)
                  (dbUpdate_pres _ _ _ _ (fun t _ _ ht => noDup_clearSlot t _ ht) h))
            · exact dbUpdate_pres _ _ _ _ (fun t _ _ ht => noDup_clearSlot t _ ht)
                (dbUpdate_pres _ _ _ _ (fun t _ _ ht => noDup_clearSlot t _ ht) h)
          · split
            · exact dbUpdate_pres _ _ _ _ (fun t _ _ ht => noDup_clearSlot t _ ht)
                (dbUpdate_pres _ _ _ _ (fun t _ _ ht => noDup_clearSlot t _ ht) h)
            · exact dbUpdate_pres _ _ _ _ (fun t _ _ ht => noDup_clearSlot t _ ht) h
    · split
      · exact h
      · exact dbUpdate_pres _ _ _ _ (fun t _ _ ht => noDup_clearSlot t _ ht)
          (dbUpdate_pres _ _ _ _ (fun t _ _ ht => noDup_clearSlot t _ ht) h)

theorem dbUpdate_setStatusOnly_map_id (w : List Trip) (rowId : String) (i : Nat)
    (s : Option String) :
    (dbUpdate w rowId (fun t => setStatusOnly t i s)).map Trip.id = w.map Trip.id :=
  dbUpdate_map_id _ _ _ (fun _ => rfl)

theorem acceptBranch_noDup (w : List Trip) (trip matchTrip : Trip)
    (hnd : (w.map Trip.id).Nodup) (h : ∀ t ∈ w, noDupEmails t) :
    ∀ t' ∈ (acceptBranch w trip matchTrip).2, noDupEmails t' := by
  unfold acceptBranch
  try simp only []
  split
  · exact h
  · split
    · split
      · exact dbUpdate_pres _ _ _ _ (fun t _ _ ht => noDup_clearSlot t _ ht) h
      · split
        · split
          · exact dbUpdate_pres _ _ _ _ (fun t _ _ ht => ht)
              (dbUpdate_pres _ _ _ _ (fun t _ _ ht => ht)
                (dbUpdate_pres _ _ _ _ (fun t _ _ ht => noDup_clearSlot t _ ht) h))
          · exact dbUpdate_pres _ _ _ _ (fun t _ _ ht => noDup_clearSlot t _ ht) h
        · exact dbUpdate_pres _ _ _ _ (fun t _ _ ht => noDup_clearSlot t _ ht) h
    · split
      · exact h
      · split
        · exact dbUpdate_pres _ _ _ _ (fun t _ _ ht => ht)
            (dbUpdate_pres _ _ _ _ (fun t _ _ ht => ht) h)
        · refine foldl_propagation_noDup trip.user_email
            (some "partner_approval_needed") _ _ ?_ ?_ ?_ ?_
          · exact dbUpdate_pres _ _ _ _ (fun t _ _ ht => ht)
              (dbUpdate_pres _ _ _ _ (fun t _ _ ht => ht) h)
          · rw [dbUpdate_setStatusOnly_map_id, dbUpdate_setStatusOnly_map_id]
            exact hnd
          · refine List.Nodup.sublist (List.Sublist.map _ (List.filter_sublist _)) ?_
            rw [dbUpdate_setStatusOnly_map_id, dbUpdate_setStatusOnly_map_id]
            exact hnd
          · intro pt hpt x hx hxid
            refine row_unique _ ?_ hx (List.mem_filter.mp hpt).1 hxid
            rw [dbUpdate_setStatusOnly_map_id, dbUpdate_setStatusOnly_map_id]
            exact hnd

theorem filter_two_rows_ne (w : List Trip) (tripId matchedTripId : String)
    (hnd : (w.map Trip.id).Nodup)
    (hlen : (w.filter (fun t => t.id == tripId || t.id == matchedTripId)).length = 2) :
    tripId ≠ matchedTripId := by
  intro hEq
  subst hEq
  have hsub : ((w.filter (fun t => t.id == tripId || t.id == tripId)).map Trip.id).Nodup :=
    List.Nodup.sublist (List.Sublist.map _ (List.filter_sublist _)) hnd
  rcases List.length_eq_two.mp hlen with ⟨a, b, hab⟩
  have ha : a ∈ w.filter (fun t => t.id == tripId || t.id == tripId) := by
    rw [hab]
    simp
  have hb : b ∈ w.filter (fun t => t.id == tripId || t.id == tripId) := by
    rw [hab]
    simp
  have hpa : a.id = tripId := by
    have := (List.mem_filter.mp ha).2
    simpa using this
  have hpb : b.id = tripId := by
    have := (List.mem_filter.mp hb).2
    simpa using this
  rw [hab] at hsub
  simp only [List.map_cons, List.map_nil, List.nodup_cons] at hsub
  exact hsub.1 (by simp [hpa, hpb])

set_option maxHeartbeats 2000000 in
/-- C10: every trip references each peer in at most one match slot, and
every match-protocol operation preserves this: the request branch and the
accept pool propagation reuse an existing slot for the peer before taking
the first empty slot, and every other write only clears slots or changes
statuses in place. -/
theorem matchRequests_preserves_noDupEmails
    (w : List Trip) (caller action tripId matchedTripId : String)
    (hnd : (w.map Trip.id).Nodup)
    (h : ∀ t ∈ w, noDupEmails t) :
    ∀ t' ∈ (matchRequestsPost w caller action tripId matchedTripId).2, noDupEmails t' := by
  unfold matchRequestsPost
  try simp only []
  split
  · exact h
  · split
    · exact h
    · rename_i hlen
      split
      · rename_i trip matchTrip heqf1 heqf2
        have hlen2 : (w.filter (fun t => t.id == tripId || t.id == matchedTripId)).length = 2 :=
          not_ne_iff.mp hlen
        have hneq : tripId ≠ matchedTripId := filter_two_rows_ne w tripId matchedTripId hnd hlen2
        have htrows := List.mem_of_find?_eq_some heqf1
        have hmrows := List.mem_of_find?_eq_some heqf2
        have htw : trip ∈ w := (List.mem_filter.mp htrows).1
        have hmw : matchTrip ∈ w := (List.mem_filter.mp hmrows).1
        have htid : trip.id = tripId := by
          have hx := List.find?_some heqf1
          simpa using hx
        have hmid : matchTrip.id = matchedTripId := by
          have hx := List.find?_some heqf2
          simpa using hx
        have hneid : trip.id ≠ matchTrip.id := by
          rw [htid, hmid]
          exact hneq
        split
        · exact h
        · split
          · exact h
          · split
            · exact h
            · split
              · exact h
              · split
                · exact requestBranch_noDup w trip matchTrip hnd h htw hmw hneid
                · split
                  · exact withdrawBranch_noDup w trip matchTrip h
                  · split
                    · exact acceptBranch_noDup w trip matchTrip hnd h
                    · split
                      · exact denyBranch_noDup w trip matchTrip h
                      · split
                        · exact removeBranch_noDup w trip matchTrip h
                        · exact h
      · exact h

/-- Witness for C10: after bob removes the confirmed alice-bob match,
alice's row (both slots cleared) still references each peer at most
once. -/
theorem matchRequests_preserves_noDupEmails_witness :
    noDupEmails (clearSlot tripAlice 0) :=
  matchRequests_preserves_noDupEmails [tripAlice, tripBob] "bob" "remove" "a" "b"
    (by decide)
    (by
      intro t ht
      simp only [List.mem_cons, List.not_mem_nil, or_false] at ht
      unfold noDupEmails
      rcases ht with h | h <;> subst h <;> decide)
    (clearSlot tripAlice 0) (by decide)

end TartanTrips